import Mathlib

/-!
A shallow embedding of `plexauth.go` of go-plexauth, and theorems on it.

Go strings are byte sequences, so they are embedded as lists of bytes.
Error values are embedded by their message text.  The standard-library
and third-party functions the program calls (`net/url`, `go-querystring`,
`encoding/json`, `context`) are embedded from their upstream behaviour,
restricted to the way `plexauth.go` calls them.
-/

namespace PlexAuth

deriving instance DecidableEq for Except

/-! ## Go strings -/

/-- A byte of a Go string. -/
abbrev Byte := Fin 256

/-- A Go `string`: an immutable sequence of bytes. -/
abbrev GoString := List Byte

/-- The bytes (UTF-8) of a string literal of the Go source. -/
def str (s : String) : GoString :=
  (s.data.flatMap String.utf8EncodeChar).map (fun b => b.val)

/-- Go's `<` on strings: lexicographic on bytes, a proper prefix is smaller. -/
def strLt : GoString → GoString → Bool
  | [], [] => false
  | [], _ :: _ => true
  | _ :: _, [] => false
  | a :: as, b :: bs => a < b || (a == b && strLt as bs)

/-! ## `net/url`: escaping -/

/-- The `upperhex` table of `net/url`, indexed by a nibble. -/
def upperhex (n : Nat) : Byte :=
  if n < 10 then ⟨(48 + n) % 256, Nat.mod_lt _ (by decide)⟩
  else ⟨(55 + n) % 256, Nat.mod_lt _ (by decide)⟩

/-- ASCII letters and digits (the first case of `shouldEscape`). -/
def isAlnum (c : Byte) : Bool :=
  (97 ≤ c.val && c.val ≤ 122) || (65 ≤ c.val && c.val ≤ 90) || (48 ≤ c.val && c.val ≤ 57)

/-- The function `shouldEscape(c, encodeQueryComponent)` of `net/url`: everything except
letters, digits and `-`, `_`, `.`, `~` is escaped in a query component. -/
def shouldEscape (c : Byte) : Bool :=
  if isAlnum c then false
  else if c.val = 45 ∨ c.val = 95 ∨ c.val = 46 ∨ c.val = 126 then false
  else true

/-- What `escape` writes for one byte in mode `encodeQueryComponent`. -/
def escapeByte (c : Byte) : GoString :=
  if shouldEscape c then
    if c.val = 32 then [43]
    else [37, upperhex (c.val >>> 4), upperhex (c.val &&& 15)]
  else [c]

/-- The function `url.QueryEscape`: `escape(s, encodeQueryComponent)`.  A string in which
nothing needs escaping is returned as it is. -/
def QueryEscape (s : GoString) : GoString :=
  if s.any shouldEscape then s.flatMap escapeByte else s

/-! ## `net/url`: unescaping and `ParseQuery` -/

/-- The errors of `net/url` met here: an `EscapeError` with the offending text, and the
"invalid semicolon separator in query" error of `parseQuery`. -/
inductive URLError where
  | escape (bad : GoString)
  | semicolon
  deriving DecidableEq, Repr

/-- The function `ishex` of `net/url`. -/
def ishex (c : Byte) : Bool :=
  (48 ≤ c.val && c.val ≤ 57) || (97 ≤ c.val && c.val ≤ 102) || (65 ≤ c.val && c.val ≤ 70)

/-- The function `unhex` of `net/url`. -/
def unhex (c : Byte) : Nat :=
  if 48 ≤ c.val ∧ c.val ≤ 57 then c.val - 48
  else if 97 ≤ c.val ∧ c.val ≤ 102 then c.val - 97 + 10
  else if 65 ≤ c.val ∧ c.val ≤ 70 then c.val - 65 + 10
  else 0

/-- First pass of `unescape`: `none` when every `%` is followed by two hex digits, else the
offending text (at most three bytes), which becomes the `EscapeError`. -/
def unescapeScan : GoString → Option GoString
  | [] => none
  | c :: rest =>
    if c.val = 37 then
      match rest with
      | h1 :: h2 :: rest2 =>
        if ishex h1 && ishex h2 then unescapeScan rest2 else some [c, h1, h2]
      | _ => some (c :: rest)
    else unescapeScan rest

/-- Second pass of `unescape` in mode `encodeQueryComponent`: `%XY` becomes the byte `XY`,
`+` becomes a space. -/
def unescapeBuild : GoString → GoString
  | [] => []
  | c :: rest =>
    if c.val = 37 then
      match rest with
      | h1 :: h2 :: rest2 =>
        ⟨((unhex h1 <<< 4) ||| unhex h2) % 256, Nat.mod_lt _ (by decide)⟩ :: unescapeBuild rest2
      | _ => []
    else if c.val = 43 then 32 :: unescapeBuild rest
    else c :: unescapeBuild rest

/-- The function `url.QueryUnescape`: `unescape(s, encodeQueryComponent)`. -/
def QueryUnescape (s : GoString) : Except URLError GoString :=
  match unescapeScan s with
  | some bad => .error (.escape bad)
  | none =>
    if s.all (fun c => c.val ≠ 37 ∧ c.val ≠ 43) then .ok s else .ok (unescapeBuild s)

/-- The function `strings.Cut(s, sep)` for a one-byte separator: the text before and after the
first `sep`, or all of `s` and the empty string when there is none. -/
def cut (sep : Byte) : GoString → GoString × GoString
  | [] => ([], [])
  | c :: rest => if c = sep then ([], rest) else ((cut sep rest).1.cons c, (cut sep rest).2)

/-- The type `url.Values`, a `map[string][]string`, as an association list without repeated
keys; the order of the list is not observable through the map operations. -/
abbrev Values := List (GoString × List GoString)

/-- The map read `v[key]`: the values under `key`, `nil` when the key is absent. -/
def Values.get (v : Values) (key : GoString) : List GoString :=
  match v with
  | [] => []
  | (k, vs) :: rest => if k = key then vs else Values.get rest key

/-- The keys of the map. -/
def Values.keys (v : Values) : List GoString := v.map Prod.fst

/-- The method `Values.Add`: `v[key] = append(v[key], value)`. -/
def Values.Add (v : Values) (key value : GoString) : Values :=
  match v with
  | [] => [(key, [value])]
  | (k, vs) :: rest =>
    if k = key then (k, vs ++ [value]) :: rest else (k, vs) :: Values.Add rest key value

/-- The loop of `parseQuery`, with fuel for the number of `&`-separated pieces: it returns the
map and the first error met.  A piece with a `;` is an error, an empty piece is skipped, a
piece whose key or value does not unescape is an error and is left out. -/
def parseQueryLoop : Nat → Values → Option URLError → GoString → Values × Option URLError
  | 0, m, err, _ => (m, err)
  | fuel + 1, m, err, query =>
    if query = [] then (m, err)
    else
      let key := (cut 38 query).1
      let query := (cut 38 query).2
      if key.contains 59 then
        parseQueryLoop fuel m (some .semicolon) query
      else if key = [] then parseQueryLoop fuel m err query
      else
        let value := (cut 61 key).2
        let key := (cut 61 key).1
        match QueryUnescape key with
        | .error e => parseQueryLoop fuel m (if err = none then some e else err) query
        | .ok key =>
          match QueryUnescape value with
          | .error e => parseQueryLoop fuel m (if err = none then some e else err) query
          | .ok value => parseQueryLoop fuel (m.Add key value) err query

/-- The function `url.ParseQuery`.  Every round of the loop removes at least one byte of a
non-empty query, so `query.length` rounds are enough. -/
def ParseQuery (query : GoString) : Values × Option URLError :=
  parseQueryLoop query.length [] none query

/-! ## `net/url`: `Values.Encode` -/

/-- Insertion of a key into a list sorted by `strLt`. -/
def insertKey (k : GoString) : List GoString → List GoString
  | [] => [k]
  | x :: xs => if strLt x k then x :: insertKey k xs else k :: x :: xs

/-- The call `slices.Sort(keys)` of `Values.Encode`: the keys in ascending byte order. -/
def sortKeys : List GoString → List GoString
  | [] => []
  | k :: ks => insertKey k (sortKeys ks)

/-- The inner loop of `Values.Encode` for one key: each value is written as
`key=value`, escaped, after a `&` when the buffer is not empty. -/
def encodeKey (keyEscaped : GoString) : GoString → List GoString → GoString
  | buf, [] => buf
  | buf, v :: vs =>
    encodeKey keyEscaped
      ((if buf.length > 0 then buf ++ [38] else buf) ++ keyEscaped ++ [61] ++ QueryEscape v) vs

/-- The method `Values.Encode`: the "URL encoded" form of the map, sorted by key. -/
def Values.Encode (v : Values) : GoString :=
  (sortKeys v.keys).foldl (fun buf k => encodeKey (QueryEscape k) buf (v.get k)) []

/-! ## `go-querystring`: `query.Values` on `authURLQueryOpts` -/

/-- The struct `ExtraAuthURLOptions`. -/
structure ExtraAuthURLOptions where
  AppVersion : GoString
  DeviceName : GoString
  Device : GoString
  Platform : GoString
  PlatformVersion : GoString
  deriving DecidableEq

/-- The struct `authURLQueryOpts`. -/
structure authURLQueryOpts where
  ClientID : GoString
  PinCode : GoString
  AppName : GoString
  AppVersion : GoString
  DeviceName : GoString
  Device : GoString
  Platform : GoString
  PlatformVersion : GoString
  deriving DecidableEq

/-- A struct field as `reflectValue` of `go-querystring` sees it: the name and the `omitempty`
option of its `url` tag, and its value. -/
structure URLField where
  name : GoString
  omitempty : Bool
  value : GoString

/-- The fields of `authURLQueryOpts` with their `url` tags, in the order of the declaration. -/
def authURLQueryOpts.fields (q : authURLQueryOpts) : List URLField :=
  [ ⟨str "clientID", false, q.ClientID⟩,
    ⟨str "code", false, q.PinCode⟩,
    ⟨str "context[device][product]", false, q.AppName⟩,
    ⟨str "context[device][version]", true, q.AppVersion⟩,
    ⟨str "context[device][deviceName]", true, q.DeviceName⟩,
    ⟨str "context[device][device]", true, q.Device⟩,
    ⟨str "context[device][platform]", true, q.Platform⟩,
    ⟨str "context[device][platformVersion]", true, q.PlatformVersion⟩ ]

/-- One round of the field loop of `reflectValue`: a field tagged `omitempty` whose value is
empty (`isEmptyValue`: length 0 for a string) is skipped, any other is added under its name. -/
def reflectField (values : Values) (f : URLField) : Values :=
  if f.omitempty && f.value.length == 0 then values else values.Add f.name f.value

/-- The function `query.Values` of `go-querystring` on an `authURLQueryOpts`.  It fails only
on an input that is not a struct, or through a field with its own encoder; this struct has
string fields only. -/
def queryValues (q : authURLQueryOpts) : Except String Values :=
  .ok (q.fields.foldl reflectField [])

/-! ## `plexauth.go`: `GenerateAuthURL` -/

/-- The function `GenerateAuthURL`; the result is the pair `(string, error)`. -/
def GenerateAuthURL (appName clientID pinCode : GoString) (extraOpts : ExtraAuthURLOptions) :
    GoString × Option String :=
  let queryOpts : authURLQueryOpts :=
    { AppName := appName
      ClientID := clientID
      PinCode := pinCode
      AppVersion := extraOpts.AppVersion
      DeviceName := extraOpts.DeviceName
      Device := extraOpts.Device
      Platform := extraOpts.Platform
      PlatformVersion := extraOpts.PlatformVersion }
  match queryValues queryOpts with
  | .error err => ([], some ("GenerateAuthURL: " ++ err))
  | .ok v =>
    let optsStr := v.Encode
    (str "https://app.plex.tv/auth#?" ++ optsStr, none)

/-! ## `context` and `time` -/

/-- The constant `time.Second`, in nanoseconds. -/
def Second : Nat := 1000000000

/-- The constant `time.Minute`, in nanoseconds. -/
def Minute : Nat := 60 * Second

/-- A non-nil `context.Context` handed in by the caller, by what closes its `Done` channel:
its deadline, if it has one, and the instant at which the caller cancels it, if ever.
Instants are nanoseconds after the start of the call. -/
structure Context where
  deadline : Option Nat
  cancelAt : Option Nat

/-- The earlier of two optional instants. -/
def earliest : Option Nat → Option Nat → Option Nat
  | none, b => b
  | a, none => a
  | some a, some b => some (min a b)

/-- The instant at which the `Done` channel of the context closes, if ever. -/
def Context.doneAt (c : Context) : Option Nat := earliest c.deadline c.cancelAt

/-- The call `context.WithTimeout(parent, timeout)` made at instant 0.  The derived context is
embedded by the instant at which its `Done` channel closes: when the timeout elapses or when
the parent is done, whichever comes first. -/
def WithTimeout (parent : Context) (timeout : Nat) : Nat :=
  match parent.doneAt with
  | none => timeout
  | some d => min d timeout

/-! ## `net/http` -/

/-- The type `http.Header`, as an association list. -/
abbrev Header := List (GoString × GoString)

/-- The method `Header.Set`: the key now holds this one value. -/
def Header.Set (h : Header) (key value : GoString) : Header :=
  h.filter (fun e => e.1 ≠ key) ++ [(key, value)]

/-- The part of an `http.Request` that `plexauth.go` sets. -/
structure Request where
  Method : GoString
  URL : GoString
  Body : GoString
  Header : Header
  deriving DecidableEq

/-- A value of a JSON object member, as far as decoding into a string or integer field looks
at it: arrays and objects without their content, a number as its integer value when the
literal has neither fraction nor exponent. -/
inductive JSONValue where
  | null
  | bool (b : Bool)
  | int (n : Int)
  | nonInt
  | string (s : String)
  | array
  | object
  deriving DecidableEq

/-- The bytes of a response body, read as JSON text: not JSON at all (a syntax error), the
literal `null`, another value that is not an object, or an object with its members in the
order of the text. -/
inductive JSONText where
  | invalid (err : String)
  | null
  | nonObject
  | object (members : List (String × JSONValue))
  deriving DecidableEq

/-- The part of an `http.Response` that `plexauth.go` reads: the status code, and what
`io.ReadAll(resp.Body)` returns, an error or the bytes. -/
structure Response where
  StatusCode : Int
  Body : Except String JSONText

/-- The function `http.NewRequestWithContext` for the constant methods and well-formed URLs
of this program: it fails on a nil context only.  The flag says whether the context is nil. -/
def NewRequestWithContext (ctxIsNil : Bool) (method url body : GoString) :
    Except String Request :=
  if ctxIsNil then .error "net/http: nil Context"
  else .ok { Method := method, URL := url, Body := body, Header := [] }

/-! ## `encoding/json`: `Unmarshal` into the two response structs -/

/-- The struct `plexPINResponse`. -/
structure plexPINResponse where
  ID : Int
  Code : GoString
  deriving DecidableEq

/-- The struct `authTokenResp`; the pointer `AuthToken` is `none` when nil. -/
structure authTokenResp where
  AuthToken : Option GoString
  deriving DecidableEq

/-- The function `foldRune` of `encoding/json`, exact on every rune whose case-folding orbit
holds an ASCII letter (the letter itself, its other case, the Kelvin sign for `k`, the long s
for `s`) and the identity elsewhere, which is all that a comparison with the ASCII names of
the fields needs. -/
def foldRune (c : Char) : Char :=
  if 'a'.toNat ≤ c.toNat ∧ c.toNat ≤ 'z'.toNat then Char.ofNat (c.toNat - 32)
  else if c.toNat = 0x212A then 'K'
  else if c.toNat = 0x17F then 'S'
  else c

/-- The function `foldName` of `encoding/json`. -/
def foldName (s : String) : String := String.mk (s.data.map foldRune)

/-- Whether the decoder takes the object key for the field with this JSON name: an exact
match, or else a match up to case folding. -/
def matchesField (key field : String) : Bool :=
  key == field || foldName key == foldName field

/-- The method `saveError` of the decoder: the first error is kept. -/
def saveError (saved : Option String) (err : String) : Option String :=
  match saved with
  | none => some err
  | some e => some e

/-- Whether an integer fits the Go type `int` (64 bits). -/
def fitsInt (n : Int) : Bool := -(2 ^ 63) ≤ n && n < 2 ^ 63

/-- One object member decoded into a `plexPINResponse`: a member for `id` must be an integer
number that fits `int`, a member for `code` must be a string; `null` leaves the field as it
is; any other value is an `UnmarshalTypeError`; a member for no field is skipped. -/
def plexPINResponse.setMember (v : plexPINResponse × Option String) (m : String × JSONValue) :
    plexPINResponse × Option String :=
  if matchesField m.1 "id" then
    match m.2 with
    | .int n =>
      if fitsInt n then ({ v.1 with ID := n }, v.2)
      else (v.1, saveError v.2 "json: cannot unmarshal number into Go struct field plexPINResponse.id of type int")
    | .null => v
    | _ => (v.1, saveError v.2 "json: cannot unmarshal value into Go struct field plexPINResponse.id of type int")
  else if matchesField m.1 "code" then
    match m.2 with
    | .string s => ({ v.1 with Code := str s }, v.2)
    | .null => v
    | _ => (v.1, saveError v.2 "json: cannot unmarshal value into Go struct field plexPINResponse.code of type string")
  else v

/-- The call `json.Unmarshal(b, &pinResp)` on a zero `plexPINResponse`: the struct after the
call and the error. -/
def UnmarshalPIN (b : JSONText) : plexPINResponse × Option String :=
  match b with
  | .invalid err => (⟨0, []⟩, some err)
  | .null => (⟨0, []⟩, none)
  | .nonObject => (⟨0, []⟩, some "json: cannot unmarshal value into Go value of type plexauth.plexPINResponse")
  | .object members => members.foldl plexPINResponse.setMember (⟨0, []⟩, none)

/-- One object member decoded into an `authTokenResp`: a member for `authToken` must be a
string, which the pointer then points to, or `null`, which makes the pointer nil. -/
def authTokenResp.setMember (v : authTokenResp × Option String) (m : String × JSONValue) :
    authTokenResp × Option String :=
  if matchesField m.1 "authToken" then
    match m.2 with
    | .string s => (⟨some (str s)⟩, v.2)
    | .null => (⟨none⟩, v.2)
    | _ => (v.1, saveError v.2 "json: cannot unmarshal value into Go struct field authTokenResp.authToken of type string")
  else v

/-- The call `json.Unmarshal(b, &respStruct)` on a zero `authTokenResp`. -/
def UnmarshalAuthToken (b : JSONText) : authTokenResp × Option String :=
  match b with
  | .invalid err => (⟨none⟩, some err)
  | .null => (⟨none⟩, none)
  | .nonObject => (⟨none⟩, some "json: cannot unmarshal value into Go value of type plexauth.authTokenResp")
  | .object members => members.foldl authTokenResp.setMember (⟨none⟩, none)

/-! ## `plexauth.go`: `IsTokenValidContext` -/

/-- Lines 22 to 30 of `IsTokenValidContext`: the request it builds.  The caller's context is
`none` when nil. -/
def tokenRequest (ctx : Option Context) (appName clientID token : GoString) :
    Except String Request :=
  let data := str "X-Plex-Product=" ++ appName ++ str "&X-Plex-Client-Identifier=" ++ clientID
    ++ str "&X-Plex-Token=" ++ token
  match NewRequestWithContext ctx.isNone (str "GET") (str "https://plex.tv/api/v2/user") data with
  | .error err => .error err
  | .ok req =>
    let header := Header.Set req.Header (str "Accept") (str "application/json")
    let header := Header.Set header (str "Content-Type") (str "application/x-www-form-urlencoded")
    .ok { req with Header := header }

/-- The function `IsTokenValidContext`.  The transport `http.DefaultClient.Do` is a parameter:
it answers a request with an error or a response. -/
def IsTokenValidContext (Do : Request → Except String Response) (ctx : Option Context)
    (appName clientID token : GoString) : Bool × Option String :=
  match tokenRequest ctx appName clientID token with
  | .error err => (false, some ("IsTokenValid: " ++ err))
  | .ok req =>
    match Do req with
    | .error err => (false, some ("IsTokenValid: " ++ err))
    | .ok resp =>
      if resp.StatusCode = 200 then (true, none)
      else if resp.StatusCode = 401 then (false, none)
      else (false, some ("IsTokenValid: unable to determine token validity, received status code "
        ++ toString resp.StatusCode))

/-- The function `IsTokenValid`: `IsTokenValidContext` with `context.Background()`, a context
that is never done. -/
def IsTokenValid (Do : Request → Except String Response) (appName clientID token : GoString) :
    Bool × Option String :=
  IsTokenValidContext Do (some ⟨none, none⟩) appName clientID token

/-! ## `plexauth.go`: `GetPlexPINContext` -/

/-- Lines 55 to 63 of `GetPlexPINContext`: the request it builds. -/
def pinRequest (ctx : Option Context) (appName clientID : GoString) : Except String Request :=
  let data := str "strong=true&X-Plex-Product=" ++ appName ++ str "&X-Plex-Client-Identifier="
    ++ clientID
  match NewRequestWithContext ctx.isNone (str "POST") (str "https://plex.tv/api/v2/pins") data with
  | .error err => .error err
  | .ok req =>
    let header := Header.Set req.Header (str "Accept") (str "application/json")
    let header := Header.Set header (str "Content-Type") (str "application/x-www-form-urlencoded")
    .ok { req with Header := header }

/-- The function `GetPlexPINContext`; the result is `(pinID, pinCode, err)`. -/
def GetPlexPINContext (Do : Request → Except String Response) (ctx : Option Context)
    (appName clientID : GoString) : Int × GoString × Option String :=
  match pinRequest ctx appName clientID with
  | .error err => (0, [], some ("GetPlexPIN: " ++ err))
  | .ok req =>
    match Do req with
    | .error err => (0, [], some ("GetPlexPIN: " ++ err))
    | .ok resp =>
      match resp.Body with
      | .error err => (0, [], some ("GetPlexPIN: " ++ err))
      | .ok b =>
        match UnmarshalPIN b with
        | (_, some err) => (0, [], some ("GetPlexPIN: " ++ err))
        | (pinResp, none) => (pinResp.ID, pinResp.Code, none)

/-- The function `GetPlexPIN`: `GetPlexPINContext` with `context.Background()`. -/
def GetPlexPIN (Do : Request → Except String Response) (appName clientID : GoString) :
    Int × GoString × Option String :=
  GetPlexPINContext Do (some ⟨none, none⟩) appName clientID

/-! ## `plexauth.go`: `PollForAuthToken` -/

/-- What surrounds one run of `PollForAuthToken`: the transport's answer to the request of
attempt `i` (attempts are counted from 0), the time that attempt `i` takes from the tick that
starts it to the next entry into the `select`, and the case that the `select` of round `i`
takes when the timer and `ctx.Done()` are ready at the same instant. -/
structure PollEnv where
  Do : Nat → Request → Except String Response
  latency : Nat → Nat
  tie : Nat → Bool

/-- Lines 125 to 132 of `PollForAuthToken`: the request of one attempt.  The context of the
request is the one derived by `context.WithTimeout`, which is never nil. -/
def pollRequest (pinID : Int) (pinCode clientID : GoString) : Except String Request :=
  let data := str "code=" ++ pinCode ++ str "&X-Plex-Client-Identifier=" ++ clientID
  match NewRequestWithContext false (str "GET")
      (str "https://plex.tv/api/v2/pins/" ++ str (toString pinID)) data with
  | .error err => .error err
  | .ok req =>
    let header := Header.Set req.Header (str "Accept") (str "application/json")
    let header := Header.Set header (str "Content-Type") (str "application/x-www-form-urlencoded")
    .ok { req with Header := header }

/-- How one attempt ends: with an error that the function returns, with a token that the
function returns, or with nothing, so that the loop goes round again. -/
inductive PollStep where
  | fail (err : String)
  | token (t : GoString)
  | again
  deriving DecidableEq

/-- Lines 125 to 152 of `PollForAuthToken`: one attempt, the body of the timer case. -/
def pollOnce (env : PollEnv) (i : Nat) (pinID : Int) (pinCode clientID : GoString) : PollStep :=
  match pollRequest pinID pinCode clientID with
  | .error err => .fail ("PollForAuthToken: " ++ err)
  | .ok req =>
    match env.Do i req with
    | .error err => .fail ("PollForAuthToken: " ++ err)
    | .ok resp =>
      match resp.Body with
      | .error err => .fail ("PollForAuthToken: " ++ err)
      | .ok b =>
        match UnmarshalAuthToken b with
        | (_, some err) => .fail ("PollForAuthToken: " ++ err)
        | (respStruct, none) =>
          match respStruct.AuthToken with
          | some t => .token t
          | none => .again

/-- The `select` of the loop, entered at instant `now` with a fresh one-second timer, while
`ctx.Done()` closes at instant `done`: the timer case runs when the timer fires first, or when
both are ready at the same instant and the choice falls on the timer. -/
def timerFires (now done : Nat) (tie : Bool) : Bool :=
  now + Second < done || (now + Second == done && tie)

/-- What a run of `PollForAuthToken` returns, `(token, err)`, and the instants at which it
issued its attempts, oldest first. -/
structure PollRun where
  token : GoString
  err : Option String
  polls : List Nat
  deriving DecidableEq

/-- The `for` loop of `PollForAuthToken`, from round `i` entered at instant `now`. -/
def pollLoop (env : PollEnv) (done : Nat) (pinID : Int) (pinCode clientID : GoString)
    (i now : Nat) (polls : List Nat) : PollRun :=
  if h : timerFires now done (env.tie i) = true then
    match pollOnce env i pinID pinCode clientID with
    | .fail err => ⟨[], some err, polls ++ [now + Second]⟩
    | .token t => ⟨t, none, polls ++ [now + Second]⟩
    | .again =>
      pollLoop env done pinID pinCode clientID (i + 1) (now + Second + env.latency i)
        (polls ++ [now + Second])
  else ⟨[], some "PollForAuthToken: could not retrieve auth token, exceeded context", polls⟩
termination_by done - now
decreasing_by
  simp only [timerFires, Second, Bool.or_eq_true, decide_eq_true_eq, Bool.and_eq_true,
    beq_iff_eq] at h
  simp only [Second]
  omega

/-- The function `PollForAuthToken`, called at instant 0. -/
def PollForAuthToken (env : PollEnv) (inCtx : Context) (pinID : Int)
    (pinCode clientID : GoString) : PollRun :=
  let done := WithTimeout inCtx (30 * Minute)
  pollLoop env done pinID pinCode clientID 0 0 []

/-- The service answers attempt `i` with a response whose body is read and decoded without
error and holds this `authToken` (`none` for `null` or absent). -/
def answersWith (env : PollEnv) (i : Nat) (tok : Option GoString) : Prop :=
  ∀ req : Request, ∃ (resp : Response) (b : JSONText),
    env.Do i req = .ok resp ∧ resp.Body = .ok b ∧ UnmarshalAuthToken b = (⟨tok⟩, none)

/-- Attempt `i` fails: at the transport, at reading the body, or at decoding the body. -/
def failsAt (env : PollEnv) (i : Nat) : Prop :=
  ∀ req : Request,
    (∃ err, env.Do i req = .error err) ∨
    (∃ resp err, env.Do i req = .ok resp ∧ resp.Body = .error err) ∨
    (∃ resp b v err, env.Do i req = .ok resp ∧ resp.Body = .ok b ∧
      UnmarshalAuthToken b = (v, some err))

/-- The instant at which round `i` of the loop enters its `select`, when every earlier attempt
came back without a token and without an error. -/
def roundStart (env : PollEnv) : Nat → Nat
  | 0 => 0
  | i + 1 => roundStart env i + Second + env.latency i

/-- The message of the error that `PollForAuthToken` returns when `ctx.Done()` wins. -/
def timeoutMessage : String := "PollForAuthToken: could not retrieve auth token, exceeded context"

/-- The effective deadline of the specification, as an instant after the start: the earlier
of the instant at which the caller's context is done (its deadline, or its cancellation when
that comes first) and 30 minutes; 30 minutes when the caller's context is never done. -/
def effectiveDeadline (inCtx : Context) : Nat :=
  match earliest inCtx.deadline inCtx.cancelAt with
  | none => 30 * Minute
  | some d => min d (30 * Minute)

/-- A mock poll endpoint with an immediate answer: `pending` to the first `n` attempts, `last`
to every later one. -/
def mockEnv (n : Nat) (pending : Response) (last : Except String Response) : PollEnv :=
  { Do := fun i _ => if i < n then .ok pending else last
    latency := fun _ => 0
    tie := fun _ => false }

/-- A response with status 200 and the body `{"authToken": null}`. -/
def pendingResponse : Response := ⟨200, .ok (.object [("authToken", .null)])⟩

/-- A response with status 200 and the body `{"authToken": "tok-1"}`. -/
def tokenResponse : Response := ⟨200, .ok (.object [("authToken", .string "tok-1")])⟩

/-! ## The encoded form, as a list of pairs -/

/-- One pair of the encoded form: the escaped key, `=`, the escaped value. -/
def encodePair (p : GoString × GoString) : GoString :=
  QueryEscape p.1 ++ 61 :: QueryEscape p.2

/-- The pairs `key=value`, escaped, joined by `&`. -/
def joinPairs : List (GoString × GoString) → GoString
  | [] => []
  | [p] => encodePair p
  | p :: q :: rest => encodePair p ++ 38 :: joinPairs (q :: rest)

/-- The pairs of a map in the order in which `Values.Encode` writes them: by ascending key, the
values of one key in their order. -/
def Values.sortedPairs (v : Values) : List (GoString × GoString) :=
  (sortKeys v.keys).flatMap (fun k => (v.get k).map (fun x => (k, x)))

/-- The pairs that the URL of `GenerateAuthURL` carries, in the order of the specification:
the three required ones, then one for each extra option that is not empty. -/
def authPairs (appName clientID pinCode : GoString) (o : ExtraAuthURLOptions) :
    List (GoString × GoString) :=
  [(str "clientID", clientID), (str "code", pinCode), (str "context[device][product]", appName)]
    ++ (if o.AppVersion = [] then [] else [(str "context[device][version]", o.AppVersion)])
    ++ (if o.DeviceName = [] then [] else [(str "context[device][deviceName]", o.DeviceName)])
    ++ (if o.Device = [] then [] else [(str "context[device][device]", o.Device)])
    ++ (if o.Platform = [] then [] else [(str "context[device][platform]", o.Platform)])
    ++ (if o.PlatformVersion = [] then []
        else [(str "context[device][platformVersion]", o.PlatformVersion)])

/-- The eight keys that the URL can carry, in the order of the fields. -/
def authKeys : List GoString :=
  [str "clientID", str "code", str "context[device][product]", str "context[device][version]",
   str "context[device][deviceName]", str "context[device][device]",
   str "context[device][platform]", str "context[device][platformVersion]"]

/-- The map that the specification expects from decoding the query of the URL: every pair of
`authPairs` as an entry with that one value. -/
def expectedMap (appName clientID pinCode : GoString) (o : ExtraAuthURLOptions) : Values :=
  (authPairs appName clientID pinCode o).map (fun p => (p.1, [p.2]))

/-- The query text that `GenerateAuthURL` puts after the base: the pairs of the call, added to
an empty map, then written by `Values.Encode`. -/
def authQuery (appName clientID pinCode : GoString) (o : ExtraAuthURLOptions) : GoString :=
  joinPairs (Values.sortedPairs
    ((authPairs appName clientID pinCode o).foldl (fun m p => Values.Add m p.1 p.2) []))

/-! # Theorems -/

/-! ## Escaping and unescaping are inverse -/

theorem upperhex_facts (n : Nat) (h : n < 16) :
    ishex (upperhex n) = true ∧ unhex (upperhex n) = n ∧
    (upperhex n).val ≠ 38 ∧ (upperhex n).val ≠ 61 ∧ (upperhex n).val ≠ 59 := by
  interval_cases n <;> decide

theorem shouldEscape_false_val (c : Byte) (h : shouldEscape c = false) :
    c.val ≠ 37 ∧ c.val ≠ 43 ∧ c.val ≠ 38 ∧ c.val ≠ 61 ∧ c.val ≠ 59 := by
  unfold shouldEscape isAlnum at h
  split at h
  · rename_i h1
    simp only [Bool.or_eq_true, Bool.and_eq_true, decide_eq_true_eq] at h1
    omega
  · split at h
    · omega
    · simp at h

theorem nibbles (n : Nat) (h : n < 256) :
    n >>> 4 < 16 ∧ n &&& 15 < 16 ∧ (((n >>> 4) <<< 4) ||| (n &&& 15)) % 256 = n := by
  have h1 : n >>> 4 = n / 16 := Nat.shiftRight_eq_div_pow n 4
  have h2 : n &&& 15 = n % 16 := Nat.and_pow_two_sub_one_eq_mod n 4
  have h3 : (n / 16) <<< 4 = 2 ^ 4 * (n / 16) := by rw [Nat.shiftLeft_eq, Nat.mul_comm]
  have h4 : n % 16 < 2 ^ 4 := Nat.mod_lt _ (by decide)
  rw [h1, h2, h3, ← Nat.mul_add_lt_is_or h4]
  refine ⟨by omega, by omega, ?_⟩
  omega

theorem escapeByte_cases (c : Byte) :
    (escapeByte c = [c] ∧ c.val ≠ 37 ∧ c.val ≠ 43) ∨
    (∃ p : Byte, escapeByte c = [p] ∧ p.val = 43 ∧ c = 32) ∨
    (∃ p h1 h2 : Byte, escapeByte c = [p, h1, h2] ∧ p.val = 37 ∧
      ishex h1 = true ∧ ishex h2 = true ∧
      ((unhex h1 <<< 4) ||| unhex h2) % 256 = c.val) := by
  by_cases hs : shouldEscape c = true
  · by_cases h32 : c.val = 32
    · right; left
      exact ⟨43, by simp [escapeByte, hs, h32], rfl, Fin.ext h32⟩
    · right; right
      obtain ⟨n1, n2, n3⟩ := nibbles c.val c.isLt
      obtain ⟨a1, a2, _⟩ := upperhex_facts _ n1
      obtain ⟨b1, b2, _⟩ := upperhex_facts _ n2
      refine ⟨37, upperhex (c.val >>> 4), upperhex (c.val &&& 15), by simp [escapeByte, hs, h32], rfl, a1, b1, ?_⟩
      rw [a2, b2, n3]
  · left
    have hs2 : shouldEscape c = false := by simpa using hs
    obtain ⟨a, b, _⟩ := shouldEscape_false_val c hs2
    exact ⟨by simp [escapeByte, hs2], a, b⟩

theorem escapeByte_no_sep (c : Byte) : ∀ b ∈ escapeByte c, b.val ≠ 38 ∧ b.val ≠ 61 ∧ b.val ≠ 59 := by
  intro b hb
  by_cases hs : shouldEscape c = true
  · by_cases h32 : c.val = 32
    · simp [escapeByte, hs, h32] at hb
      subst hb; decide
    · obtain ⟨n1, n2, n3⟩ := nibbles c.val c.isLt
      simp [escapeByte, hs, h32] at hb
      rcases hb with hb | hb | hb
      · subst hb; decide
      · subst hb; exact (upperhex_facts _ n1).2.2
      · subst hb; exact (upperhex_facts _ n2).2.2
  · have hs2 : shouldEscape c = false := by simpa using hs
    simp [escapeByte, hs2] at hb
    subst hb
    exact (shouldEscape_false_val b hs2).2.2

theorem unescapeScan_escapeByte (c : Byte) (rest : GoString) :
    unescapeScan (escapeByte c ++ rest) = unescapeScan rest := by
  rcases escapeByte_cases c with ⟨h, h1, _⟩ | ⟨p, h, hp, _⟩ | ⟨p, a, b, h, hp, h1, h2, _⟩
  · rw [h, List.singleton_append, unescapeScan.eq_def]; simp [h1]
  · rw [h, List.singleton_append, unescapeScan.eq_def]; simp [hp]
  · rw [h]; simp [unescapeScan, h1, h2, hp]

theorem unescapeBuild_escapeByte (c : Byte) (rest : GoString) :
    unescapeBuild (escapeByte c ++ rest) = c :: unescapeBuild rest := by
  rcases escapeByte_cases c with ⟨h, h1, h2⟩ | ⟨p, h, hp, hc⟩ | ⟨p, a, b, h, hp, _, _, h3⟩
  · rw [h, List.singleton_append, unescapeBuild.eq_def]; simp [h1, h2]
  · rw [h, hc, List.singleton_append, unescapeBuild.eq_def]; simp [hp]
  · rw [h]; simp [unescapeBuild, h3, hp]

theorem unescapeScan_flatMap (s : GoString) : unescapeScan (s.flatMap escapeByte) = none := by
  induction s with
  | nil => simp [unescapeScan]
  | cons c s ih => rw [List.flatMap_cons, unescapeScan_escapeByte, ih]

theorem unescapeBuild_flatMap (s : GoString) : unescapeBuild (s.flatMap escapeByte) = s := by
  induction s with
  | nil => simp [unescapeBuild]
  | cons c s ih => rw [List.flatMap_cons, unescapeBuild_escapeByte, ih]

/-- Without `%` and `+` the second pass of `unescape` copies its input. -/
theorem unescapeBuild_of_plain (t : GoString)
    (h : t.all (fun c => c.val ≠ 37 ∧ c.val ≠ 43) = true) : unescapeBuild t = t := by
  induction t with
  | nil => simp [unescapeBuild]
  | cons c t ih =>
    simp only [List.all_cons, Bool.and_eq_true, decide_eq_true_eq] at h
    rw [unescapeBuild.eq_def]
    simp [h.1.1, h.1.2, ih h.2]

/-- The shortcut of `escape` for a string without bytes to escape agrees with the general
path. -/
theorem QueryEscape_eq_flatMap (s : GoString) : QueryEscape s = s.flatMap escapeByte := by
  unfold QueryEscape
  split
  · rfl
  · rename_i h
    induction s with
    | nil => rfl
    | cons c s ih =>
      simp only [List.any_cons, Bool.or_eq_true, not_or, Bool.not_eq_true] at h
      rw [List.flatMap_cons, show escapeByte c = [c] by simp [escapeByte, h.1]]
      simp only [List.singleton_append, List.cons.injEq, true_and]
      exact ih (by simp [h.2])

/-- Unescaping an escaped string gives the string back, without error. -/
theorem QueryUnescape_QueryEscape (s : GoString) : QueryUnescape (QueryEscape s) = .ok s := by
  rw [QueryEscape_eq_flatMap]
  unfold QueryUnescape
  rw [unescapeScan_flatMap]
  simp only
  split
  · rename_i h
    rw [← unescapeBuild_of_plain _ h, unescapeBuild_flatMap]
  · rw [unescapeBuild_flatMap]

/-- An escaped string has no `&`, `=` or `;`. -/
theorem QueryEscape_no_sep (s : GoString) : ∀ b ∈ QueryEscape s, b.val ≠ 38 ∧ b.val ≠ 61 ∧ b.val ≠ 59 := by
  rw [QueryEscape_eq_flatMap]
  intro b hb
  rw [List.mem_flatMap] at hb
  obtain ⟨c, _, hc⟩ := hb
  exact escapeByte_no_sep c b hc

/-! ## `Values.Encode` writes the sorted pairs -/

theorem encodePair_length_pos (p : GoString × GoString) : 0 < (encodePair p).length := by
  simp [encodePair]

theorem joinPairs_cons (p : GoString × GoString) (rest : List (GoString × GoString)) :
    joinPairs (p :: rest) = encodePair p ++ (if rest = [] then [] else 38 :: joinPairs rest) := by
  cases rest <;> simp [joinPairs]

theorem joinPairs_length_pos (p : GoString × GoString) (rest : List (GoString × GoString)) :
    0 < (joinPairs (p :: rest)).length := by
  rw [joinPairs_cons, List.length_append]
  have := encodePair_length_pos p
  omega

theorem joinPairs_snoc (ps : List (GoString × GoString)) (p : GoString × GoString) :
    joinPairs (ps ++ [p]) =
      (if (joinPairs ps).length > 0 then joinPairs ps ++ [38] else joinPairs ps) ++ encodePair p := by
  induction ps with
  | nil => simp [joinPairs]
  | cons q rest ih =>
    have hpos := joinPairs_length_pos q rest
    rw [if_pos hpos]
    rw [List.cons_append, joinPairs_cons, ih, joinPairs_cons]
    cases rest with
    | nil => simp [joinPairs]
    | cons r rest2 =>
      have hpos2 := joinPairs_length_pos r rest2
      simp [hpos2]

theorem encodeKey_joinPairs (k : GoString) (vs : List GoString) :
    ∀ ps : List (GoString × GoString),
      encodeKey (QueryEscape k) (joinPairs ps) vs = joinPairs (ps ++ vs.map (fun x => (k, x))) := by
  induction vs with
  | nil => intro ps; simp [encodeKey]
  | cons v vs ih =>
    intro ps
    have h := ih (ps ++ [(k, v)])
    rw [joinPairs_snoc] at h
    simp only [encodeKey, List.map_cons]
    rw [show ps ++ (k, v) :: vs.map (fun x => (k, x)) = (ps ++ [(k, v)]) ++ vs.map (fun x => (k, x)) by simp]
    rw [← h]
    congr 1
    simp [encodePair, List.append_assoc]

theorem encode_foldl (v : Values) (keys : List GoString) :
    ∀ ps : List (GoString × GoString),
      keys.foldl (fun buf k => encodeKey (QueryEscape k) buf (v.get k)) (joinPairs ps) =
        joinPairs (ps ++ keys.flatMap (fun k => (v.get k).map (fun x => (k, x)))) := by
  induction keys with
  | nil => intro ps; simp
  | cons k keys ih =>
    intro ps
    simp only [List.foldl_cons, List.flatMap_cons]
    rw [encodeKey_joinPairs, ih, List.append_assoc]

/-- The method `Values.Encode` writes the pairs of the map, sorted by key and joined
by `&`. -/
theorem Values.Encode_eq_joinPairs (v : Values) : v.Encode = joinPairs v.sortedPairs := by
  have h := encode_foldl v (sortKeys v.keys) []
  simpa [Values.Encode, Values.sortedPairs, joinPairs] using h

/-! ## The order on strings and the sort of the keys -/

theorem strLt_irrefl (a : GoString) : strLt a a = false := by
  induction a with
  | nil => rfl
  | cons x xs ih => simp [strLt, ih]

theorem strLt_trans : ∀ a b c : GoString, strLt a b = true → strLt b c = true → strLt a c = true
  | [], [], _, h, _ => by simp [strLt] at h
  | [], _ :: _, [], _, h => by simp [strLt] at h
  | [], _ :: _, _ :: _, _, _ => by simp [strLt]
  | _ :: _, [], _, h, _ => by simp [strLt] at h
  | _ :: _, _ :: _, [], _, h => by simp [strLt] at h
  | x :: xs, y :: ys, z :: zs, h1, h2 => by
    simp only [strLt, Bool.or_eq_true, decide_eq_true_eq, Bool.and_eq_true, beq_iff_eq] at h1 h2 ⊢
    rcases h1 with h1 | ⟨h1, h1r⟩
    · rcases h2 with h2 | ⟨h2, _⟩
      · exact Or.inl (lt_trans h1 h2)
      · exact Or.inl (h2 ▸ h1)
    · rcases h2 with h2 | ⟨h2, h2r⟩
      · exact Or.inl (h1 ▸ h2)
      · exact Or.inr ⟨h1.trans h2, strLt_trans xs ys zs h1r h2r⟩

theorem strLt_trichotomy : ∀ a b : GoString, strLt a b = false → a ≠ b → strLt b a = true
  | [], [], _, h => absurd rfl h
  | [], _ :: _, h, _ => by simp [strLt] at h
  | _ :: _, [], _, _ => by simp [strLt]
  | x :: xs, y :: ys, h, hne => by
    simp only [strLt, Bool.or_eq_false_iff, decide_eq_false_iff_not, Bool.and_eq_false_imp,
      beq_iff_eq] at h
    simp only [strLt, Bool.or_eq_true, decide_eq_true_eq, Bool.and_eq_true, beq_iff_eq]
    rcases lt_or_eq_of_le (not_lt.mp h.1) with hlt | heq
    · exact Or.inl hlt
    · refine Or.inr ⟨heq, strLt_trichotomy xs ys (h.2 heq.symm) ?_⟩
      intro hxs
      exact hne (by rw [heq, hxs])

theorem insertKey_perm (k : GoString) (xs : List GoString) : (insertKey k xs).Perm (k :: xs) := by
  induction xs with
  | nil => simp [insertKey]
  | cons x xs ih =>
    simp only [insertKey]
    split
    · exact (List.Perm.cons x ih).trans (List.Perm.swap k x xs)
    · exact List.Perm.refl _

theorem sortKeys_perm (ks : List GoString) : (sortKeys ks).Perm ks := by
  induction ks with
  | nil => simp [sortKeys]
  | cons k ks ih => exact (insertKey_perm k _).trans (List.Perm.cons k ih)

theorem insertKey_sorted (k : GoString) (xs : List GoString)
    (hs : xs.Pairwise (fun a b => strLt a b = true)) (hk : k ∉ xs) :
    (insertKey k xs).Pairwise (fun a b => strLt a b = true) := by
  induction xs with
  | nil => simp [insertKey]
  | cons x xs ih =>
    rw [List.pairwise_cons] at hs
    simp only [List.mem_cons, not_or] at hk
    simp only [insertKey]
    split
    · rename_i hlt
      rw [List.pairwise_cons]
      refine ⟨?_, ih hs.2 hk.2⟩
      intro y hy
      have hy2 := (List.Perm.mem_iff (insertKey_perm k xs)).mp hy
      rw [List.mem_cons] at hy2
      rcases hy2 with hy2 | hy2
      · exact hy2 ▸ hlt
      · exact hs.1 y hy2
    · rename_i hnlt
      have hkx : strLt k x = true :=
        strLt_trichotomy x k (by simpa using hnlt) (fun h => hk.1 h.symm)
      rw [List.pairwise_cons]
      refine ⟨?_, List.pairwise_cons.mpr hs⟩
      intro y hy
      simp only [List.mem_cons] at hy
      rcases hy with hy | hy
      · exact hy ▸ hkx
      · exact strLt_trans k x y hkx (hs.1 y hy)

/-- The sort puts keys without repetition in strictly ascending order. -/
theorem sortKeys_sorted (ks : List GoString) (hn : ks.Nodup) :
    (sortKeys ks).Pairwise (fun a b => strLt a b = true) := by
  induction ks with
  | nil => simp [sortKeys]
  | cons k ks ih =>
    rw [List.nodup_cons] at hn
    exact insertKey_sorted k _ (ih hn.2)
      (fun h => hn.1 ((List.Perm.mem_iff (sortKeys_perm ks)).mp h))

/-! ## Maps built by `Values.Add` -/

/-- The map read after one `Values.Add`. -/
theorem Values.get_Add (m : Values) (k v key : GoString) :
    (m.Add k v).get key = if k = key then m.get key ++ [v] else m.get key := by
  induction m with
  | nil => by_cases h : k = key <;> simp [Values.Add, Values.get, h]
  | cons e rest ih =>
    obtain ⟨k2, vs⟩ := e
    by_cases h2 : k2 = k
    · subst h2
      by_cases h : k2 = key <;> simp [Values.Add, Values.get, h]
    · simp only [Values.Add, if_neg h2, Values.get, ih]
      by_cases h3 : k2 = key
      · have h4 : ¬ k = key := fun h => h2 (h3.trans h.symm)
        simp [h3, h4]
      · simp [h3]

theorem Values.get_foldl_Add (ps : List (GoString × GoString)) (key : GoString) :
    ∀ m : Values, (ps.foldl (fun m p => m.Add p.1 p.2) m).get key =
      m.get key ++ (ps.filter (fun p => p.1 = key)).map Prod.snd := by
  induction ps with
  | nil => intro m; simp
  | cons p ps ih =>
    intro m
    rw [List.foldl_cons, ih, Values.get_Add]
    by_cases h : p.1 = key <;> simp [h, List.filter_cons]

theorem Values.keys_Add (m : Values) (k v key : GoString) :
    key ∈ (m.Add k v).keys ↔ key = k ∨ key ∈ m.keys := by
  induction m with
  | nil => simp [Values.Add, Values.keys]
  | cons e rest ih =>
    obtain ⟨k2, vs⟩ := e
    simp only [Values.keys] at ih
    by_cases h2 : k2 = k
    · subst h2
      simp [Values.Add, Values.keys]
    · simp only [Values.Add, h2, if_false, Values.keys, List.map_cons, List.mem_cons, ih]
      tauto

theorem Values.keys_foldl_Add (ps : List (GoString × GoString)) (key : GoString) :
    ∀ m : Values, key ∈ (ps.foldl (fun m p => m.Add p.1 p.2) m).keys ↔
      key ∈ m.keys ∨ key ∈ ps.map Prod.fst := by
  induction ps with
  | nil => intro m; simp
  | cons p ps ih =>
    intro m
    rw [List.foldl_cons, ih, Values.keys_Add]
    simp only [List.map_cons, List.mem_cons]
    tauto

theorem Values.Add_of_not_mem (m : Values) (k v : GoString) (h : k ∉ m.keys) :
    m.Add k v = m ++ [(k, [v])] := by
  induction m with
  | nil => rfl
  | cons e rest ih =>
    obtain ⟨k2, vs⟩ := e
    simp only [Values.keys, List.map_cons, List.mem_cons, not_or] at h
    have h2 : ¬ k2 = k := fun h3 => h.1 h3.symm
    simp only [Values.Add, h2, if_false, List.cons_append]
    rw [ih h.2]

theorem Values.keys_foldl_Add_nodup (ps : List (GoString × GoString)) :
    ∀ m : Values, (m.keys ++ ps.map Prod.fst).Nodup →
      (ps.foldl (fun m p => m.Add p.1 p.2) m).keys = m.keys ++ ps.map Prod.fst := by
  induction ps with
  | nil => intro m _; simp
  | cons p ps ih =>
    intro m hn
    have hp : p.1 ∉ m.keys := by
      intro hmem
      have := (List.nodup_append.mp hn).2.2
      exact this hmem (by simp)
    have hk : (m.Add p.1 p.2).keys = m.keys ++ [p.1] := by
      rw [Values.Add_of_not_mem m p.1 p.2 hp]
      simp [Values.keys]
    rw [List.foldl_cons, ih, hk]
    · simp
    · rw [hk]
      simpa using hn

/-- With keys that do not repeat, the pairs under one key are that one pair. -/
theorem filter_key_of_nodup (ps : List (GoString × GoString)) (hn : (ps.map Prod.fst).Nodup)
    (p : GoString × GoString) (hp : p ∈ ps) : ps.filter (fun q => q.1 = p.1) = [p] := by
  induction ps with
  | nil => simp at hp
  | cons q ps ih =>
    simp only [List.map_cons, List.nodup_cons] at hn
    rw [List.mem_cons] at hp
    rcases hp with hp | hp
    · subst hp
      have : ps.filter (fun q => q.1 = p.1) = [] := by
        rw [List.filter_eq_nil_iff]
        intro a ha
        simp only [decide_eq_true_eq]
        intro h
        exact hn.1 (h ▸ List.mem_map_of_mem Prod.fst ha)
      simp [List.filter_cons, this]
    · have hq : ¬ q.1 = p.1 := by
        intro h
        exact hn.1 (h ▸ List.mem_map_of_mem Prod.fst hp)
      simp [List.filter_cons, hq, ih hn.2 hp]

/-- The pairs that `Values.Encode` writes for a map built from pairs with distinct keys: each
key brings its one pair. -/
theorem sortedPairs_foldl_Add (ps : List (GoString × GoString))
    (hn : (ps.map Prod.fst).Nodup) :
    Values.sortedPairs (ps.foldl (fun m p => m.Add p.1 p.2) []) =
      (sortKeys (ps.map Prod.fst)).flatMap (fun k => ps.filter (fun q => q.1 = k)) := by
  unfold Values.sortedPairs
  rw [Values.keys_foldl_Add_nodup ps [] (by simpa [Values.keys] using hn)]
  simp only [Values.keys, List.map_nil, List.nil_append]
  apply List.flatMap_congr
  intro k _
  rw [Values.get_foldl_Add]
  simp only [Values.get, List.nil_append, List.map_map]
  rw [List.map_congr_left (g := id)]
  · simp
  · intro q hq
    simp only [List.mem_filter, decide_eq_true_eq] at hq
    simp [← hq.2]

theorem flatMap_filter_key (ps : List (GoString × GoString)) (hn : (ps.map Prod.fst).Nodup) :
    (ps.map Prod.fst).flatMap (fun k => ps.filter (fun q => q.1 = k)) = ps := by
  rw [List.flatMap_map]
  rw [List.flatMap_congr (g := fun p => [p]) (fun p hp => filter_key_of_nodup ps hn p hp)]
  simp

theorem map_fst_flatMap_filter_key (ps : List (GoString × GoString))
    (hn : (ps.map Prod.fst).Nodup) :
    ∀ ks : List GoString, (∀ k ∈ ks, k ∈ ps.map Prod.fst) →
      (ks.flatMap (fun k => ps.filter (fun q => q.1 = k))).map Prod.fst = ks := by
  intro ks
  induction ks with
  | nil => intro _; rfl
  | cons k ks ih =>
    intro h
    obtain ⟨p, hp, hpk⟩ := List.mem_map.mp (h k (by simp))
    rw [List.flatMap_cons, List.map_append, ih (fun k2 hk2 => h k2 (by simp [hk2]))]
    rw [← hpk, filter_key_of_nodup ps hn p hp]
    rfl

/-- For a map built from pairs with distinct keys, `Values.Encode` writes those pairs,
reordered. -/
theorem sortedPairs_perm (ps : List (GoString × GoString)) (hn : (ps.map Prod.fst).Nodup) :
    (Values.sortedPairs (ps.foldl (fun m p => m.Add p.1 p.2) [])).Perm ps := by
  rw [sortedPairs_foldl_Add ps hn]
  have h := List.Perm.flatMap_right (fun k => ps.filter (fun q => q.1 = k))
    (sortKeys_perm (ps.map Prod.fst))
  rw [flatMap_filter_key ps hn] at h
  exact h

/-- For a map built from pairs with distinct keys, `Values.Encode` writes the pairs in
strictly ascending order of their keys. -/
theorem sortedPairs_sorted (ps : List (GoString × GoString)) (hn : (ps.map Prod.fst).Nodup) :
    (Values.sortedPairs (ps.foldl (fun m p => m.Add p.1 p.2) [])).Pairwise
      (fun p q => strLt p.1 q.1 = true) := by
  rw [sortedPairs_foldl_Add ps hn]
  have h := map_fst_flatMap_filter_key ps hn (sortKeys (ps.map Prod.fst))
    (fun k hk => (List.Perm.mem_iff (sortKeys_perm _)).mp hk)
  have hs := sortKeys_sorted (ps.map Prod.fst) hn
  rw [← h, List.pairwise_map] at hs
  exact hs

/-! ## `ParseQuery` reads back what `Values.Encode` writes -/

theorem cut_of_not_mem (sep : Byte) (a : GoString) (h : sep ∉ a) : cut sep a = (a, []) := by
  induction a with
  | nil => rfl
  | cons c a ih =>
    simp only [List.mem_cons, not_or] at h
    have hc : ¬ c = sep := fun h2 => h.1 h2.symm
    simp [cut, hc, ih h.2]

theorem cut_append_sep (sep : Byte) (a b : GoString) (h : sep ∉ a) :
    cut sep (a ++ sep :: b) = (a, b) := by
  induction a with
  | nil => simp [cut]
  | cons c a ih =>
    simp only [List.mem_cons, not_or] at h
    have hc : ¬ c = sep := fun h2 => h.1 h2.symm
    simp [cut, hc, ih h.2]

theorem QueryEscape_not_mem (s : GoString) :
    (38 : Byte) ∉ QueryEscape s ∧ (61 : Byte) ∉ QueryEscape s ∧ (59 : Byte) ∉ QueryEscape s := by
  refine ⟨fun h => ?_, fun h => ?_, fun h => ?_⟩
  · exact (QueryEscape_no_sep s _ h).1 rfl
  · exact (QueryEscape_no_sep s _ h).2.1 rfl
  · exact (QueryEscape_no_sep s _ h).2.2 rfl

theorem encodePair_not_mem (p : GoString × GoString) :
    (38 : Byte) ∉ encodePair p ∧ (59 : Byte) ∉ encodePair p := by
  obtain ⟨a1, _, a3⟩ := QueryEscape_not_mem p.1
  obtain ⟨b1, _, b3⟩ := QueryEscape_not_mem p.2
  simp only [encodePair, List.mem_append, List.mem_cons, not_or]
  exact ⟨⟨a1, by decide, b1⟩, ⟨a3, by decide, b3⟩⟩

theorem cut_amp_joinPairs (p : GoString × GoString) (rest : List (GoString × GoString)) :
    cut 38 (joinPairs (p :: rest)) = (encodePair p, joinPairs rest) := by
  rw [joinPairs_cons]
  by_cases h : rest = []
  · subst h
    simp [cut_of_not_mem 38 _ (encodePair_not_mem p).1, joinPairs]
  · simp only [h, if_false]
    exact cut_append_sep 38 _ _ (encodePair_not_mem p).1

theorem cut_eq_encodePair (p : GoString × GoString) :
    cut 61 (encodePair p) = (QueryEscape p.1, QueryEscape p.2) :=
  cut_append_sep 61 _ _ (QueryEscape_not_mem p.1).2.1

theorem parseQueryLoop_nil (fuel : Nat) (m : Values) (err : Option URLError) :
    parseQueryLoop fuel m err [] = (m, err) := by
  cases fuel <;> simp [parseQueryLoop]

theorem cut_snd_length (sep : Byte) (s : GoString) (h : s ≠ []) :
    (cut sep s).2.length < s.length := by
  induction s with
  | nil => exact absurd rfl h
  | cons c rest ih =>
    by_cases hc : c = sep
    · simp [cut, hc]
    · by_cases hr : rest = []
      · subst hr; simp [cut, hc]
      · have := ih hr
        simp only [cut, hc, if_false, List.length_cons]
        omega

/-- The fuel of `ParseQuery` is enough: more fuel than the length of the query gives the same
result. -/
theorem parseQueryLoop_fuel : ∀ (n fuel : Nat) (m : Values) (err : Option URLError)
    (query : GoString), query.length ≤ n → n ≤ fuel →
    parseQueryLoop fuel m err query = parseQueryLoop n m err query := by
  intro n
  induction n with
  | zero =>
    intro fuel m err query hq _
    have : query = [] := List.length_eq_zero.mp (Nat.le_zero.mp hq)
    subst this
    rw [parseQueryLoop_nil, parseQueryLoop_nil]
  | succ n ih =>
    intro fuel m err query hq hf
    obtain ⟨f, rfl⟩ : ∃ f, fuel = f + 1 := ⟨fuel - 1, by omega⟩
    by_cases hnil : query = []
    · subst hnil
      rw [parseQueryLoop_nil, parseQueryLoop_nil]
    · have hlen := cut_snd_length 38 query hnil
      have hrest : (cut 38 query).2.length ≤ n := by omega
      have hf2 : n ≤ f := by omega
      rw [parseQueryLoop, parseQueryLoop]
      simp only [hnil, if_false]
      split
      · exact ih f _ _ _ hrest hf2
      · split
        · exact ih f _ _ _ hrest hf2
        · split
          · exact ih f _ _ _ hrest hf2
          · split
            · exact ih f _ _ _ hrest hf2
            · exact ih f _ _ _ hrest hf2

/-- The loop of `parseQuery` on the sorted, joined pairs adds each pair to the map and
meets no error. -/
theorem parseQueryLoop_joinPairs (ps : List (GoString × GoString)) :
    ∀ (fuel : Nat) (m : Values) (err : Option URLError), (joinPairs ps).length ≤ fuel →
      parseQueryLoop fuel m err (joinPairs ps) = (ps.foldl (fun m p => m.Add p.1 p.2) m, err) := by
  induction ps with
  | nil => intro fuel m err _; simp [joinPairs, parseQueryLoop_nil]
  | cons p rest ih =>
    intro fuel m err hlen
    have hpos := joinPairs_length_pos p rest
    obtain ⟨f, rfl⟩ : ∃ f, fuel = f + 1 := ⟨fuel - 1, by omega⟩
    have hne : joinPairs (p :: rest) ≠ [] := by
      intro h; rw [h] at hpos; simp at hpos
    have hne2 : encodePair p ≠ [] := by
      intro h; have := encodePair_length_pos p; rw [h] at this; simp at this
    have hsemi : (encodePair p).contains 59 = false := by
      simpa using (encodePair_not_mem p).2
    have hrest : (joinPairs rest).length ≤ f := by
      rw [joinPairs_cons, List.length_append] at hlen
      have := encodePair_length_pos p
      by_cases h : rest = []
      · subst h; simp [joinPairs]
      · simp only [h, if_false, List.length_cons] at hlen
        omega
    rw [parseQueryLoop]
    simp only [hne, if_false, cut_amp_joinPairs, hsemi, hne2, cut_eq_encodePair,
      QueryUnescape_QueryEscape, Bool.false_eq_true]
    exact ih f _ err hrest

/-- The function `url.ParseQuery` on the joined pairs gives the map with those pairs, and
no error. -/
theorem ParseQuery_joinPairs (ps : List (GoString × GoString)) :
    ParseQuery (joinPairs ps) = (ps.foldl (fun m p => Values.Add m p.1 p.2) [], none) :=
  parseQueryLoop_joinPairs ps _ [] none (Nat.le_refl _)

/-! ## `GenerateAuthURL` -/

theorem authKeys_nodup : authKeys.Nodup := by decide

theorem authPairs_keys_sublist (appName clientID pinCode : GoString) (o : ExtraAuthURLOptions) :
    ((authPairs appName clientID pinCode o).map Prod.fst).Sublist authKeys := by
  obtain ⟨a, b, c, d, e⟩ := o
  have hopt : ∀ (k v : GoString),
      ((if v = [] then [] else [(k, v)] : List (GoString × GoString)).map Prod.fst).Sublist [k] := by
    intro k v
    split <;> simp
  simp only [authPairs, List.map_append]
  have h1 : ([(str "clientID", clientID), (str "code", pinCode),
      (str "context[device][product]", appName)].map Prod.fst).Sublist
      [str "clientID", str "code", str "context[device][product]"] := by simp
  exact ((((h1.append (hopt _ a)).append (hopt _ b)).append (hopt _ c)).append
    (hopt _ d)).append (hopt _ e)

theorem authPairs_keys_nodup (appName clientID pinCode : GoString) (o : ExtraAuthURLOptions) :
    ((authPairs appName clientID pinCode o).map Prod.fst).Nodup :=
  (authPairs_keys_sublist appName clientID pinCode o).nodup authKeys_nodup

theorem reflectField_required (m : Values) (k v : GoString) :
    reflectField m ⟨k, false, v⟩ = m.Add k v := by
  simp [reflectField]

theorem reflectField_optional (m : Values) (k v : GoString) :
    reflectField m ⟨k, true, v⟩ =
      (if v = [] then [] else [(k, v)]).foldl (fun m p => Values.Add m p.1 p.2) m := by
  cases v <;> simp [reflectField]

theorem reflect_fields_eq (appName clientID pinCode : GoString) (o : ExtraAuthURLOptions) :
    (authURLQueryOpts.fields
      { AppName := appName, ClientID := clientID, PinCode := pinCode, AppVersion := o.AppVersion,
        DeviceName := o.DeviceName, Device := o.Device, Platform := o.Platform,
        PlatformVersion := o.PlatformVersion }).foldl reflectField [] =
      (authPairs appName clientID pinCode o).foldl (fun m p => Values.Add m p.1 p.2) [] := by
  simp only [authURLQueryOpts.fields, authPairs, List.foldl_cons, List.foldl_nil,
    List.foldl_append, reflectField_required, reflectField_optional]

/-- The URL is the base followed by the pairs that `Values.Encode` sorts and joins. -/
theorem GenerateAuthURL_eq (appName clientID pinCode : GoString) (o : ExtraAuthURLOptions) :
    GenerateAuthURL appName clientID pinCode o =
      (str "https://app.plex.tv/auth#?" ++ authQuery appName clientID pinCode o, none) := by
  simp only [GenerateAuthURL, queryValues, reflect_fields_eq, Values.Encode_eq_joinPairs,
    authQuery]

theorem authKeys_ne : authKeys.Pairwise (fun a b => a ≠ b ∧ b ≠ a) := by
  have h := authKeys_nodup
  unfold List.Nodup at h
  exact h.imp (fun hab => ⟨hab, fun h2 => hab h2.symm⟩)

theorem mem_optional_key (key k v : GoString) :
    key ∈ (if v = [] then [] else [(k, v)] : List (GoString × GoString)).map Prod.fst ↔
      key = k ∧ v ≠ [] := by
  by_cases h : v = [] <;> simp [h]

/-- The keys of the pairs of a call. -/
theorem authPairs_keys_mem (appName clientID pinCode : GoString) (o : ExtraAuthURLOptions)
    (key : GoString) :
    key ∈ (authPairs appName clientID pinCode o).map Prod.fst ↔
      key = str "clientID" ∨ key = str "code" ∨ key = str "context[device][product]" ∨
      (key = str "context[device][version]" ∧ o.AppVersion ≠ []) ∨
      (key = str "context[device][deviceName]" ∧ o.DeviceName ≠ []) ∨
      (key = str "context[device][device]" ∧ o.Device ≠ []) ∨
      (key = str "context[device][platform]" ∧ o.Platform ≠ []) ∨
      (key = str "context[device][platformVersion]" ∧ o.PlatformVersion ≠ []) := by
  simp only [authPairs, List.map_append, List.mem_append, mem_optional_key, List.map_cons,
    List.map_nil, List.mem_cons, List.not_mem_nil, or_false, or_assoc]

/-- An optional key is among the keys of a call exactly when its option is not empty. -/
theorem authPairs_optional_keys (appName clientID pinCode : GoString) (o : ExtraAuthURLOptions) :
    (str "context[device][version]" ∈ (authPairs appName clientID pinCode o).map Prod.fst ↔
      o.AppVersion ≠ []) ∧
    (str "context[device][deviceName]" ∈ (authPairs appName clientID pinCode o).map Prod.fst ↔
      o.DeviceName ≠ []) ∧
    (str "context[device][device]" ∈ (authPairs appName clientID pinCode o).map Prod.fst ↔
      o.Device ≠ []) ∧
    (str "context[device][platform]" ∈ (authPairs appName clientID pinCode o).map Prod.fst ↔
      o.Platform ≠ []) ∧
    (str "context[device][platformVersion]" ∈ (authPairs appName clientID pinCode o).map Prod.fst ↔
      o.PlatformVersion ≠ []) := by
  have h := authKeys_ne
  simp only [authKeys, List.pairwise_cons, List.mem_cons, List.mem_singleton, forall_eq_or_imp,
    forall_eq, List.not_mem_nil, IsEmpty.forall_iff, implies_true, List.Pairwise.nil, and_true,
    ne_eq] at h
  simp only [authPairs_keys_mem, h, false_or, or_false, false_and, true_and, and_true]

/-- In a list of pairs with distinct keys, the map read of the entries is the filter on
the key. -/
theorem get_map_pairs (ps : List (GoString × GoString)) (hn : (ps.map Prod.fst).Nodup)
    (key : GoString) :
    Values.get (ps.map (fun p => (p.1, [p.2]))) key =
      (ps.filter (fun p => p.1 = key)).map Prod.snd := by
  induction ps with
  | nil => rfl
  | cons p ps ih =>
    simp only [List.map_cons, List.nodup_cons] at hn
    by_cases h : p.1 = key
    · have hnil : ps.filter (fun q => q.1 = key) = [] := by
        rw [List.filter_eq_nil_iff]
        intro a ha
        simp only [decide_eq_true_eq]
        intro h2
        exact hn.1 (by rw [h, ← h2]; exact List.mem_map_of_mem Prod.fst ha)
      simp [Values.get, h, List.filter_cons, hnil]
    · simp [Values.get, h, List.filter_cons, ih hn.2]

/-- Under the key of one of its pairs the expected map holds the value of that pair. -/
theorem expectedMap_get_of_mem (appName clientID pinCode : GoString) (o : ExtraAuthURLOptions)
    (k v : GoString) (h : (k, v) ∈ authPairs appName clientID pinCode o) :
    (expectedMap appName clientID pinCode o).get k = [v] := by
  have hn := authPairs_keys_nodup appName clientID pinCode o
  rw [expectedMap, get_map_pairs _ hn, filter_key_of_nodup _ hn (k, v) h]
  rfl

/-- Under a key of none of its pairs the expected map holds nothing. -/
theorem expectedMap_get_of_not_mem (appName clientID pinCode : GoString)
    (o : ExtraAuthURLOptions) (k : GoString)
    (h : k ∉ (authPairs appName clientID pinCode o).map Prod.fst) :
    (expectedMap appName clientID pinCode o).get k = [] := by
  have hn := authPairs_keys_nodup appName clientID pinCode o
  rw [expectedMap, get_map_pairs _ hn]
  have : (authPairs appName clientID pinCode o).filter (fun p => p.1 = k) = [] := by
    rw [List.filter_eq_nil_iff]
    intro a ha
    simp only [decide_eq_true_eq]
    intro h2
    exact h (h2 ▸ List.mem_map_of_mem Prod.fst ha)
  rw [this]
  rfl

theorem expectedMap_get_optional (appName clientID pinCode : GoString) (o : ExtraAuthURLOptions)
    (k v : GoString) (hk : k ∈ (authPairs appName clientID pinCode o).map Prod.fst ↔ v ≠ [])
    (hm : v ≠ [] → (k, v) ∈ authPairs appName clientID pinCode o) :
    (expectedMap appName clientID pinCode o).get k = (if v = [] then [] else [v]) := by
  by_cases hv : v = []
  · rw [if_pos hv]
    exact expectedMap_get_of_not_mem _ _ _ _ _ (fun h => (hk.mp h) hv)
  · rw [if_neg hv]
    exact expectedMap_get_of_mem _ _ _ _ _ _ (hm hv)

/-- What the expected map holds under each of the eight keys. -/
theorem expectedMap_get_keys (appName clientID pinCode : GoString) (o : ExtraAuthURLOptions) :
    (expectedMap appName clientID pinCode o).get (str "clientID") = [clientID] ∧
    (expectedMap appName clientID pinCode o).get (str "code") = [pinCode] ∧
    (expectedMap appName clientID pinCode o).get (str "context[device][product]") = [appName] ∧
    (expectedMap appName clientID pinCode o).get (str "context[device][version]") =
      (if o.AppVersion = [] then [] else [o.AppVersion]) ∧
    (expectedMap appName clientID pinCode o).get (str "context[device][deviceName]") =
      (if o.DeviceName = [] then [] else [o.DeviceName]) ∧
    (expectedMap appName clientID pinCode o).get (str "context[device][device]") =
      (if o.Device = [] then [] else [o.Device]) ∧
    (expectedMap appName clientID pinCode o).get (str "context[device][platform]") =
      (if o.Platform = [] then [] else [o.Platform]) ∧
    (expectedMap appName clientID pinCode o).get (str "context[device][platformVersion]") =
      (if o.PlatformVersion = [] then [] else [o.PlatformVersion]) := by
  obtain ⟨h4, h5, h6, h7, h8⟩ := authPairs_optional_keys appName clientID pinCode o
  refine ⟨expectedMap_get_of_mem _ _ _ _ _ _ (by simp [authPairs]),
    expectedMap_get_of_mem _ _ _ _ _ _ (by simp [authPairs]),
    expectedMap_get_of_mem _ _ _ _ _ _ (by simp [authPairs]),
    expectedMap_get_optional _ _ _ _ _ _ h4 (fun hv => by simp [authPairs, hv]),
    expectedMap_get_optional _ _ _ _ _ _ h5 (fun hv => by simp [authPairs, hv]),
    expectedMap_get_optional _ _ _ _ _ _ h6 (fun hv => by simp [authPairs, hv]),
    expectedMap_get_optional _ _ _ _ _ _ h7 (fun hv => by simp [authPairs, hv]),
    expectedMap_get_optional _ _ _ _ _ _ h8 (fun hv => by simp [authPairs, hv])⟩

/-- A reordering of pairs with distinct keys has the same pairs under every key. -/
theorem filter_key_perm (sp ps : List (GoString × GoString)) (hp : sp.Perm ps)
    (hn : (ps.map Prod.fst).Nodup) (key : GoString) :
    sp.filter (fun p => p.1 = key) = ps.filter (fun p => p.1 = key) := by
  have h := hp.filter (fun p => p.1 = key)
  by_cases hk : ∃ p ∈ ps, p.1 = key
  · obtain ⟨p, hp1, hp2⟩ := hk
    have h1 := filter_key_of_nodup ps hn p hp1
    rw [hp2] at h1
    rw [h1] at h ⊢
    exact List.perm_singleton.mp h
  · have h1 : ps.filter (fun p => p.1 = key) = [] := by
      rw [List.filter_eq_nil_iff]
      intro a ha
      simp only [decide_eq_true_eq]
      intro h2
      exact hk ⟨a, ha, h2⟩
    rw [h1] at h ⊢
    exact List.perm_nil.mp h

/-- The query of the URL, decoded by `url.ParseQuery`: no error, and the map has the entries
of the expected map. -/
theorem ParseQuery_authQuery (appName clientID pinCode : GoString) (o : ExtraAuthURLOptions) :
    (ParseQuery (authQuery appName clientID pinCode o)).2 = none ∧
    (∀ key, (ParseQuery (authQuery appName clientID pinCode o)).1.get key =
        (expectedMap appName clientID pinCode o).get key) ∧
    (∀ key, key ∈ (ParseQuery (authQuery appName clientID pinCode o)).1.keys ↔
        key ∈ (authPairs appName clientID pinCode o).map Prod.fst) := by
  have hn := authPairs_keys_nodup appName clientID pinCode o
  have hp := sortedPairs_perm _ hn
  unfold authQuery
  rw [ParseQuery_joinPairs]
  refine ⟨rfl, fun key => ?_, fun key => ?_⟩
  · rw [Values.get_foldl_Add, expectedMap, get_map_pairs _ hn, filter_key_perm _ _ hp hn]
    rfl
  · rw [Values.keys_foldl_Add]
    simp only [Values.keys, List.map_nil, List.not_mem_nil, false_or]
    exact (hp.map Prod.fst).mem_iff

/-! ## The claims on `GenerateAuthURL` -/

/-- C8: in the output of `GenerateAuthURL`, read back with `url.ParseQuery`, the three
required keys `clientID`, `code` and `context[device][product]` are always present, each
optional key is present exactly when its option is not the empty string, and no key other than
these eight is present. -/
theorem GenerateAuthURL_keys (appName clientID pinCode : GoString) (o : ExtraAuthURLOptions) :
    ∃ query : GoString,
      (GenerateAuthURL appName clientID pinCode o).1 = str "https://app.plex.tv/auth#?" ++ query ∧
      (str "clientID" ∈ (ParseQuery query).1.keys ∧ str "code" ∈ (ParseQuery query).1.keys ∧
        str "context[device][product]" ∈ (ParseQuery query).1.keys) ∧
      (str "context[device][version]" ∈ (ParseQuery query).1.keys ↔ o.AppVersion ≠ []) ∧
      (str "context[device][deviceName]" ∈ (ParseQuery query).1.keys ↔ o.DeviceName ≠ []) ∧
      (str "context[device][device]" ∈ (ParseQuery query).1.keys ↔ o.Device ≠ []) ∧
      (str "context[device][platform]" ∈ (ParseQuery query).1.keys ↔ o.Platform ≠ []) ∧
      (str "context[device][platformVersion]" ∈ (ParseQuery query).1.keys ↔
        o.PlatformVersion ≠ []) ∧
      (∀ key ∈ (ParseQuery query).1.keys, key ∈ authKeys) := by
  refine ⟨authQuery appName clientID pinCode o, by rw [GenerateAuthURL_eq], ?_⟩
  have hk := (ParseQuery_authQuery appName clientID pinCode o).2.2
  obtain ⟨h4, h5, h6, h7, h8⟩ := authPairs_optional_keys appName clientID pinCode o
  refine ⟨⟨?_, ?_, ?_⟩, ?_, ?_, ?_, ?_, ?_, ?_⟩
  · rw [hk]; simp [authPairs]
  · rw [hk]; simp [authPairs]
  · rw [hk]; simp [authPairs]
  · rw [hk]; exact h4
  · rw [hk]; exact h5
  · rw [hk]; exact h6
  · rw [hk]; exact h7
  · rw [hk]; exact h8
  · intro key hkey
    rw [hk] at hkey
    exact (authPairs_keys_sublist appName clientID pinCode o).subset hkey

/-- C9: `GenerateAuthURL` returns no error, and its result is the base
`https://app.plex.tv/auth#?` followed by the escaped pairs `key=value` of the call, joined by
`&`, in strictly ascending byte order of the keys; the example of the specification gives
exactly the URL stated there. -/
theorem GenerateAuthURL_sorted (appName clientID pinCode : GoString) (o : ExtraAuthURLOptions) :
    (∃ ps : List (GoString × GoString),
      GenerateAuthURL appName clientID pinCode o =
        (str "https://app.plex.tv/auth#?" ++ joinPairs ps, none) ∧
      ps.Perm (authPairs appName clientID pinCode o) ∧
      ps.Pairwise (fun p q => strLt p.1 q.1 = true)) ∧
    GenerateAuthURL (str "App") (str "abc123") (str "XYZ9") ⟨[], [], [], [], []⟩ =
      (str "https://app.plex.tv/auth#?clientID=abc123&code=XYZ9&context%5Bdevice%5D%5Bproduct%5D=App",
        none) := by
  have hn := authPairs_keys_nodup appName clientID pinCode o
  exact ⟨⟨_, GenerateAuthURL_eq appName clientID pinCode o, sortedPairs_perm _ hn,
    sortedPairs_sorted _ hn⟩, by decide⟩

/-- C10: the text after the base of the URL, decoded by `url.ParseQuery`, gives without error
a map with the same keys and the same values as the expected map (the three required entries
and one entry for each option that is not empty); and two calls that return the same URL
were given the same appName, clientID, pinCode and options. -/
theorem GenerateAuthURL_roundtrip :
    (∀ (appName clientID pinCode : GoString) (o : ExtraAuthURLOptions), ∃ query : GoString,
      GenerateAuthURL appName clientID pinCode o =
        (str "https://app.plex.tv/auth#?" ++ query, none) ∧
      (ParseQuery query).2 = none ∧
      (∀ key, (ParseQuery query).1.get key = (expectedMap appName clientID pinCode o).get key) ∧
      (∀ key, key ∈ (ParseQuery query).1.keys ↔
        key ∈ (expectedMap appName clientID pinCode o).keys)) ∧
    (∀ (appName clientID pinCode : GoString) (o : ExtraAuthURLOptions)
      (appName2 clientID2 pinCode2 : GoString) (o2 : ExtraAuthURLOptions),
      GenerateAuthURL appName clientID pinCode o = GenerateAuthURL appName2 clientID2 pinCode2 o2 →
      appName = appName2 ∧ clientID = clientID2 ∧ pinCode = pinCode2 ∧ o = o2) := by
  constructor
  · intro appName clientID pinCode o
    obtain ⟨h1, h2, h3⟩ := ParseQuery_authQuery appName clientID pinCode o
    refine ⟨authQuery appName clientID pinCode o, GenerateAuthURL_eq appName clientID pinCode o, h1, h2,
      fun key => ?_⟩
    rw [h3]
    simp [expectedMap, Values.keys]
  · intro appName clientID pinCode o appName2 clientID2 pinCode2 o2 heq
    rw [GenerateAuthURL_eq, GenerateAuthURL_eq] at heq
    have hq := List.append_cancel_left (Prod.mk.inj heq).1
    have hg : ∀ key, (expectedMap appName clientID pinCode o).get key =
        (expectedMap appName2 clientID2 pinCode2 o2).get key := by
      intro key
      rw [← (ParseQuery_authQuery appName clientID pinCode o).2.1 key,
        ← (ParseQuery_authQuery appName2 clientID2 pinCode2 o2).2.1 key, hq]
    obtain ⟨a1, a2, a3, a4, a5, a6, a7, a8⟩ := expectedMap_get_keys appName clientID pinCode o
    obtain ⟨b1, b2, b3, b4, b5, b6, b7, b8⟩ := expectedMap_get_keys appName2 clientID2 pinCode2 o2
    have hopt : ∀ x y : GoString,
        (if x = [] then ([] : List GoString) else [x]) = (if y = [] then [] else [y]) → x = y := by
      intro x y hxy
      by_cases hx : x = [] <;> by_cases hy : y = [] <;> simp_all
    have c1 := hg (str "clientID"); rw [a1, b1] at c1
    have c2 := hg (str "code"); rw [a2, b2] at c2
    have c3 := hg (str "context[device][product]"); rw [a3, b3] at c3
    have c4 := hg (str "context[device][version]"); rw [a4, b4] at c4
    have c5 := hg (str "context[device][deviceName]"); rw [a5, b5] at c5
    have c6 := hg (str "context[device][device]"); rw [a6, b6] at c6
    have c7 := hg (str "context[device][platform]"); rw [a7, b7] at c7
    have c8 := hg (str "context[device][platformVersion]"); rw [a8, b8] at c8
    obtain ⟨o1, o2', o3, o4, o5⟩ := o
    obtain ⟨p1, p2, p3, p4, p5⟩ := o2
    simp only at c4 c5 c6 c7 c8
    have e4 := hopt _ _ c4
    have e5 := hopt _ _ c5
    have e6 := hopt _ _ c6
    have e7 := hopt _ _ c7
    have e8 := hopt _ _ c8
    subst e4 e5 e6 e7 e8
    exact ⟨by simpa using c3, by simpa using c1, by simpa using c2, rfl⟩

/-! ## The claims on `IsTokenValidContext`, `GetPlexPINContext` and the request bodies -/

/-- C1: when the request is built and the transport delivers a response, `IsTokenValidContext`
returns `(true, nil)` for status 200, `(false, nil)` for status 401, and for every other
status `(false, err)` with an error whose message contains the status code in decimal. -/
theorem IsTokenValidContext_status (Do : Request → Except String Response)
    (ctx : Option Context) (appName clientID token : GoString) (req : Request) (resp : Response)
    (hreq : tokenRequest ctx appName clientID token = .ok req) (hdo : Do req = .ok resp) :
    (resp.StatusCode = 200 →
      IsTokenValidContext Do ctx appName clientID token = (true, none)) ∧
    (resp.StatusCode = 401 →
      IsTokenValidContext Do ctx appName clientID token = (false, none)) ∧
    (resp.StatusCode ≠ 200 → resp.StatusCode ≠ 401 →
      ∃ msg : String, IsTokenValidContext Do ctx appName clientID token = (false, some msg) ∧
        (toString resp.StatusCode).data <:+: msg.data) := by
  refine ⟨fun h => ?_, fun h => ?_, fun h1 h2 => ?_⟩
  · simp [IsTokenValidContext, hreq, hdo, h]
  · simp [IsTokenValidContext, hreq, hdo, h]
  · refine ⟨"IsTokenValid: unable to determine token validity, received status code "
      ++ toString resp.StatusCode, by simp [IsTokenValidContext, hreq, hdo, h1, h2], ?_⟩
    rw [String.data_append]
    exact (List.suffix_append _ _).isInfix

/-- Witness of C1: status 500 gives `(false, err)` and the message of `err` contains `500`. -/
theorem IsTokenValidContext_status_witness :
    ∃ msg : String,
      IsTokenValidContext (fun _ => .ok ⟨500, .ok .null⟩) (some ⟨none, none⟩) (str "App")
        (str "abc123") (str "tok") = (false, some msg) ∧
      (toString (500 : Int)).data <:+: msg.data :=
  (IsTokenValidContext_status (fun _ => .ok ⟨500, .ok .null⟩) (some ⟨none, none⟩) (str "App")
    (str "abc123") (str "tok") _ ⟨500, .ok .null⟩ rfl rfl).2.2 (by decide) (by decide)

/-- C6, as it fails: the service rejects the request with status 400 and a JSON body that
has neither `id` nor `code`, and `GetPlexPINContext` returns the claim `(0, "")` with no
error. -/
theorem GetPlexPINContext_rejection_accepted :
    GetPlexPINContext (fun _ => .ok ⟨400, .ok (.object [("errors", .array)])⟩)
      (some ⟨none, none⟩) (str "App") (str "abc123") = (0, [], none) := by
  decide

/-- C6, amended: `GetPlexPINContext` returns `(0, "", err)` exactly in four cases: the
request cannot be built, the transport fails, the body cannot be read, the body cannot be
decoded; in every other case, whatever the HTTP status of the response, it returns the
decoded `id` and `code` as they are (0 and the empty string for fields that are absent), with
no error.  The status code has no part in the result. -/
theorem GetPlexPINContext_result (Do : Request → Except String Response)
    (ctx : Option Context) (appName clientID : GoString) :
    (∀ err, pinRequest ctx appName clientID = .error err →
      GetPlexPINContext Do ctx appName clientID = (0, [], some ("GetPlexPIN: " ++ err))) ∧
    (∀ req err, pinRequest ctx appName clientID = .ok req → Do req = .error err →
      GetPlexPINContext Do ctx appName clientID = (0, [], some ("GetPlexPIN: " ++ err))) ∧
    (∀ req resp err, pinRequest ctx appName clientID = .ok req → Do req = .ok resp →
      resp.Body = .error err →
      GetPlexPINContext Do ctx appName clientID = (0, [], some ("GetPlexPIN: " ++ err))) ∧
    (∀ req resp b v err, pinRequest ctx appName clientID = .ok req → Do req = .ok resp →
      resp.Body = .ok b → UnmarshalPIN b = (v, some err) →
      GetPlexPINContext Do ctx appName clientID = (0, [], some ("GetPlexPIN: " ++ err))) ∧
    (∀ req resp b pinResp, pinRequest ctx appName clientID = .ok req → Do req = .ok resp →
      resp.Body = .ok b → UnmarshalPIN b = (pinResp, none) →
      GetPlexPINContext Do ctx appName clientID = (pinResp.ID, pinResp.Code, none)) ∧
    (∀ (resp : Response) (status : Int),
      GetPlexPINContext (fun _ => .ok { resp with StatusCode := status }) ctx appName clientID =
        GetPlexPINContext (fun _ => .ok resp) ctx appName clientID) := by
  refine ⟨fun err h1 => ?_, fun req err h1 h2 => ?_, fun req resp err h1 h2 h3 => ?_,
    fun req resp b v err h1 h2 h3 h4 => ?_, fun req resp b pinResp h1 h2 h3 h4 => ?_,
    fun resp status => ?_⟩
  · simp only [GetPlexPINContext, h1]
  · simp only [GetPlexPINContext, h1, h2]
  · simp only [GetPlexPINContext, h1, h2, h3]
  · simp only [GetPlexPINContext, h1, h2, h3, h4]
  · simp only [GetPlexPINContext, h1, h2, h3, h4]
  · simp only [GetPlexPINContext]

/-- Witness of C6, amended: a response with status 400 and the body `{"id": 7, "code": "XYZ9"}`
is returned as the claim `(7, "XYZ9")` with no error. -/
theorem GetPlexPINContext_result_witness :
    GetPlexPINContext
      (fun _ => .ok ⟨400, .ok (.object [("id", .int 7), ("code", .string "XYZ9")])⟩)
      (some ⟨none, none⟩) (str "App") (str "abc123") = (7, str "XYZ9", none) :=
  (GetPlexPINContext_result
    (fun _ => .ok ⟨400, .ok (.object [("id", .int 7), ("code", .string "XYZ9")])⟩)
    (some ⟨none, none⟩) (str "App") (str "abc123")).2.2.2.2.1 _
    ⟨400, .ok (.object [("id", .int 7), ("code", .string "XYZ9")])⟩
    (.object [("id", .int 7), ("code", .string "XYZ9")]) ⟨7, str "XYZ9"⟩ rfl rfl rfl (by decide)

/-- C7, as it fails: for the application name `A&B` the body of the request of
`IsTokenValidContext`, decoded by `url.ParseQuery`, holds `A` and not `A&B` under
`X-Plex-Product`, and has a key `B` that is no field of the call. -/
theorem tokenRequest_body_not_encoded :
    ∃ req : Request,
      tokenRequest (some ⟨none, none⟩) (str "A&B") (str "abc123") (str "tok") = .ok req ∧
      req.Body = str "X-Plex-Product=A&B&X-Plex-Client-Identifier=abc123&X-Plex-Token=tok" ∧
      (ParseQuery req.Body).1.get (str "X-Plex-Product") = [str "A"] ∧
      (ParseQuery req.Body).1.get (str "X-Plex-Product") ≠ [str "A&B"] ∧
      str "B" ∈ (ParseQuery req.Body).1.keys :=
  ⟨_, rfl, by decide, by decide, by decide, by decide⟩

/-! ## The loop of `PollForAuthToken` -/

theorem pollRequest_ok (pinID : Int) (pinCode clientID : GoString) :
    ∃ req, pollRequest pinID pinCode clientID = .ok req := ⟨_, rfl⟩

theorem pollOnce_of_null (env : PollEnv) (i : Nat) (pinID : Int) (pinCode clientID : GoString)
    (h : answersWith env i none) : pollOnce env i pinID pinCode clientID = .again := by
  obtain ⟨req, hreq⟩ := pollRequest_ok pinID pinCode clientID
  obtain ⟨resp, b, h1, h2, h3⟩ := h req
  simp only [pollOnce, hreq, h1, h2, h3]

theorem pollOnce_of_token (env : PollEnv) (i : Nat) (pinID : Int) (pinCode clientID : GoString)
    (t : GoString) (h : answersWith env i (some t)) :
    pollOnce env i pinID pinCode clientID = .token t := by
  obtain ⟨req, hreq⟩ := pollRequest_ok pinID pinCode clientID
  obtain ⟨resp, b, h1, h2, h3⟩ := h req
  simp only [pollOnce, hreq, h1, h2, h3]

theorem pollOnce_of_fails (env : PollEnv) (i : Nat) (pinID : Int) (pinCode clientID : GoString)
    (h : failsAt env i) : ∃ err, pollOnce env i pinID pinCode clientID = .fail err := by
  obtain ⟨req, hreq⟩ := pollRequest_ok pinID pinCode clientID
  rcases h req with ⟨err, h1⟩ | ⟨resp, err, h1, h2⟩ | ⟨resp, b, v, err, h1, h2, h3⟩
  · exact ⟨"PollForAuthToken: " ++ err, by simp only [pollOnce, hreq, h1]⟩
  · exact ⟨"PollForAuthToken: " ++ err, by simp only [pollOnce, hreq, h1, h2]⟩
  · exact ⟨"PollForAuthToken: " ++ err, by simp only [pollOnce, hreq, h1, h2, h3]⟩

theorem pollLoop_fire (env : PollEnv) (done : Nat) (pinID : Int) (pinCode clientID : GoString)
    (i now : Nat) (polls : List Nat) (h : timerFires now done (env.tie i) = true) :
    pollLoop env done pinID pinCode clientID i now polls =
      (match pollOnce env i pinID pinCode clientID with
       | .fail err => ⟨[], some err, polls ++ [now + Second]⟩
       | .token t => ⟨t, none, polls ++ [now + Second]⟩
       | .again =>
         pollLoop env done pinID pinCode clientID (i + 1) (now + Second + env.latency i)
           (polls ++ [now + Second])) := by
  rw [pollLoop, dif_pos h]

theorem pollLoop_stop (env : PollEnv) (done : Nat) (pinID : Int) (pinCode clientID : GoString)
    (i now : Nat) (polls : List Nat) (h : timerFires now done (env.tie i) = false) :
    pollLoop env done pinID pinCode clientID i now polls = ⟨[], some timeoutMessage, polls⟩ := by
  rw [pollLoop, dif_neg (by simp [h])]
  rfl

theorem timerFires_of_lt (now done : Nat) (tie : Bool) (h : now + Second < done) :
    timerFires now done tie = true := by
  simp [timerFires, h]

theorem timerFires_le (now done : Nat) (tie : Bool) (h : timerFires now done tie = true) :
    now + Second ≤ done := by
  simp only [timerFires, Bool.or_eq_true, decide_eq_true_eq, Bool.and_eq_true, beq_iff_eq] at h
  omega

theorem roundStart_mono (env : PollEnv) (i k : Nat) :
    roundStart env i ≤ roundStart env (i + k) := by
  induction k with
  | zero => exact Nat.le_refl _
  | succ k ih =>
    rw [← Nat.add_assoc, roundStart]
    omega

/-- While the attempts come back without token and without error and the deadline is ahead,
the loop goes from round `i` to round `i + k` and issues `k` attempts. -/
theorem pollLoop_pending (env : PollEnv) (done : Nat) (pinID : Int) (pinCode clientID : GoString)
    (k : Nat) : ∀ (i : Nat) (polls : List Nat),
    (∀ j, i ≤ j → j < i + k → answersWith env j none) →
    roundStart env (i + k) + Second < done →
    ∃ polls2 : List Nat, polls2.length = polls.length + k ∧
      pollLoop env done pinID pinCode clientID i (roundStart env i) polls =
        pollLoop env done pinID pinCode clientID (i + k) (roundStart env (i + k)) polls2 := by
  induction k with
  | zero => intro i polls _ _; exact ⟨polls, rfl, rfl⟩
  | succ k ih =>
    intro i polls hnull hdl
    have hfire : timerFires (roundStart env i) done (env.tie i) = true := by
      apply timerFires_of_lt
      have := roundStart_mono env i (k + 1)
      omega
    have hstep := pollOnce_of_null env i pinID pinCode clientID
      (hnull i (Nat.le_refl _) (by omega))
    have hdl2 : roundStart env (i + 1 + k) + Second < done := by
      rw [show i + 1 + k = i + (k + 1) by omega]; exact hdl
    obtain ⟨polls2, hlen, heq⟩ := ih (i + 1) (polls ++ [roundStart env i + Second])
      (fun j h1 h2 => hnull j (by omega) (by omega)) hdl2
    refine ⟨polls2, by simp at hlen; omega, ?_⟩
    rw [pollLoop_fire _ _ _ _ _ _ _ _ hfire, hstep]
    simp only
    rw [show i + (k + 1) = i + 1 + k by omega, ← heq]
    rfl

/-- The run that ends with a token: `k` attempts without token, then one with. -/
theorem pollRun_first_token (env : PollEnv) (inCtx : Context) (pinID : Int)
    (pinCode clientID : GoString) (k : Nat) (t : GoString)
    (hnull : ∀ i, i < k → answersWith env i none) (htok : answersWith env k (some t))
    (hdl : roundStart env k + Second < WithTimeout inCtx (30 * Minute)) :
    (PollForAuthToken env inCtx pinID pinCode clientID).token = t ∧
    (PollForAuthToken env inCtx pinID pinCode clientID).err = none ∧
    (PollForAuthToken env inCtx pinID pinCode clientID).polls.length = k + 1 := by
  obtain ⟨polls2, hlen, heq⟩ := pollLoop_pending env (WithTimeout inCtx (30 * Minute)) pinID
    pinCode clientID k 0 [] (fun j _ h => hnull j (by omega)) (by simpa using hdl)
  have hfire := timerFires_of_lt _ _ (env.tie k) hdl
  have hstep := pollOnce_of_token env k pinID pinCode clientID t htok
  simp only [Nat.zero_add] at heq
  have h0 : roundStart env 0 = 0 := rfl
  rw [h0] at heq
  simp only [PollForAuthToken]
  rw [heq, pollLoop_fire _ _ _ _ _ _ _ _ hfire, hstep]
  simp at hlen
  simp [hlen]

/-- While every attempt comes back without token and without error, the loop ends in the
timeout error; its attempts lie between one second after its entry and the deadline, any two
of them at least a second apart. -/
theorem pollLoop_all_pending (env : PollEnv) (done : Nat) (pinID : Int)
    (pinCode clientID : GoString) (hnull : ∀ i, answersWith env i none) :
    ∀ (n i now : Nat) (polls : List Nat), done - now ≤ n →
    ∃ new : List Nat,
      pollLoop env done pinID pinCode clientID i now polls =
        ⟨[], some timeoutMessage, polls ++ new⟩ ∧
      (∀ t ∈ new, now + Second ≤ t ∧ t ≤ done) ∧
      new.Pairwise (fun a b => a + Second ≤ b) ∧
      new.length * Second ≤ done - now := by
  intro n
  induction n with
  | zero =>
    intro i now polls hn
    have hstop : timerFires now done (env.tie i) = false := by
      simp only [timerFires, Second, Bool.or_eq_false_iff, decide_eq_false_iff_not,
        Bool.and_eq_false_imp, beq_iff_eq]
      omega
    exact ⟨[], by rw [pollLoop_stop _ _ _ _ _ _ _ _ hstop]; simp, by simp, by simp, by simp⟩
  | succ n ih =>
    intro i now polls hn
    by_cases hfire : timerFires now done (env.tie i) = true
    · have hle := timerFires_le _ _ _ hfire
      have hstep := pollOnce_of_null env i pinID pinCode clientID (hnull i)
      obtain ⟨new2, heq, hb, hp, hl⟩ := ih (i + 1) (now + Second + env.latency i)
        (polls ++ [now + Second]) (by simp only [Second] at hle ⊢; omega)
      refine ⟨(now + Second) :: new2, ?_, ?_, ?_, ?_⟩
      · rw [pollLoop_fire _ _ _ _ _ _ _ _ hfire, hstep]
        simp only
        rw [heq]
        simp
      · intro t ht
        rw [List.mem_cons] at ht
        rcases ht with ht | ht
        · subst ht; exact ⟨Nat.le_refl _, hle⟩
        · have := hb t ht
          omega
      · rw [List.pairwise_cons]
        refine ⟨fun t ht => ?_, hp⟩
        have := hb t ht
        omega
      · simp only [List.length_cons, Second] at hl hle ⊢
        omega
    · have hstop : timerFires now done (env.tie i) = false := by simpa using hfire
      exact ⟨[], by rw [pollLoop_stop _ _ _ _ _ _ _ _ hstop]; simp, by simp, by simp, by simp⟩

theorem WithTimeout_le (inCtx : Context) (timeout : Nat) :
    WithTimeout inCtx timeout ≤ timeout ∧
      ∀ D, inCtx.deadline = some D → WithTimeout inCtx timeout ≤ D := by
  obtain ⟨dl, ca⟩ := inCtx
  cases dl <;> cases ca <;> simp [WithTimeout, Context.doneAt, earliest]

/-! ## The claims on `PollForAuthToken` -/

/-- C2: when the first `k` attempts are answered with a decoded response whose `authToken`
is null, attempt `k + 1` is answered with `authToken` `t`, and the timer of attempt `k + 1`
fires before the deadline, `PollForAuthToken` returns `(t, nil)` and has issued exactly
`k + 1` attempts. -/
theorem PollForAuthToken_first_token (env : PollEnv) (inCtx : Context) (pinID : Int)
    (pinCode clientID : GoString) (k : Nat) (t : GoString)
    (hnull : ∀ i, i < k → answersWith env i none) (htok : answersWith env k (some t))
    (hdl : roundStart env k + Second < WithTimeout inCtx (30 * Minute)) :
    (PollForAuthToken env inCtx pinID pinCode clientID).token = t ∧
    (PollForAuthToken env inCtx pinID pinCode clientID).err = none ∧
    (PollForAuthToken env inCtx pinID pinCode clientID).polls.length = k + 1 :=
  pollRun_first_token env inCtx pinID pinCode clientID k t hnull htok hdl

/-- Witness of C2: null, null, null, then `tok-1` returns `tok-1` after exactly 4 attempts. -/
theorem PollForAuthToken_first_token_witness :
    (PollForAuthToken (mockEnv 3 pendingResponse (.ok tokenResponse)) ⟨none, none⟩ 42
      (str "XYZ9") (str "abc123")).token = str "tok-1" ∧
    (PollForAuthToken (mockEnv 3 pendingResponse (.ok tokenResponse)) ⟨none, none⟩ 42
      (str "XYZ9") (str "abc123")).err = none ∧
    (PollForAuthToken (mockEnv 3 pendingResponse (.ok tokenResponse)) ⟨none, none⟩ 42
      (str "XYZ9") (str "abc123")).polls.length = 3 + 1 :=
  PollForAuthToken_first_token (mockEnv 3 pendingResponse (.ok tokenResponse)) ⟨none, none⟩ 42
    (str "XYZ9") (str "abc123") 3 (str "tok-1")
    (fun i hi _ => ⟨pendingResponse, _, by simp only [mockEnv, if_pos hi], rfl, by decide⟩)
    (fun _ => ⟨tokenResponse, _, by simp [mockEnv], rfl, by decide⟩)
    (by decide)

/-- C3: when the first `k` attempts are answered with a decoded response whose `authToken`
is null, the timer of attempt `k + 1` fires before the deadline, and attempt `k + 1` fails at
the transport, at reading the body or at decoding it, `PollForAuthToken` returns
`("", err)` and has issued exactly `k + 1` attempts. -/
theorem PollForAuthToken_first_failure (env : PollEnv) (inCtx : Context) (pinID : Int)
    (pinCode clientID : GoString) (k : Nat)
    (hnull : ∀ i, i < k → answersWith env i none) (hfail : failsAt env k)
    (hdl : roundStart env k + Second < WithTimeout inCtx (30 * Minute)) :
    (PollForAuthToken env inCtx pinID pinCode clientID).token = [] ∧
    (∃ err, (PollForAuthToken env inCtx pinID pinCode clientID).err = some err) ∧
    (PollForAuthToken env inCtx pinID pinCode clientID).polls.length = k + 1 := by
  obtain ⟨polls2, hlen, heq⟩ := pollLoop_pending env (WithTimeout inCtx (30 * Minute)) pinID
    pinCode clientID k 0 [] (fun j _ h => hnull j (by omega)) (by simpa using hdl)
  have hfire := timerFires_of_lt _ _ (env.tie k) hdl
  obtain ⟨err, hstep⟩ := pollOnce_of_fails env k pinID pinCode clientID hfail
  simp only [Nat.zero_add] at heq
  have h0 : roundStart env 0 = 0 := rfl
  rw [h0] at heq
  simp only [PollForAuthToken]
  rw [heq, pollLoop_fire _ _ _ _ _ _ _ _ hfire, hstep]
  simp at hlen
  simp [hlen]

/-- Witness of C3: two attempts answered with null, then a body that is not JSON: the
third attempt is the last. -/
theorem PollForAuthToken_first_failure_witness :
    (PollForAuthToken (mockEnv 2 pendingResponse (.ok ⟨200, .ok (.invalid "unexpected end of JSON input")⟩))
      ⟨none, none⟩ 42 (str "XYZ9") (str "abc123")).token = [] ∧
    (∃ err, (PollForAuthToken (mockEnv 2 pendingResponse (.ok ⟨200, .ok (.invalid "unexpected end of JSON input")⟩))
      ⟨none, none⟩ 42 (str "XYZ9") (str "abc123")).err = some err) ∧
    (PollForAuthToken (mockEnv 2 pendingResponse (.ok ⟨200, .ok (.invalid "unexpected end of JSON input")⟩))
      ⟨none, none⟩ 42 (str "XYZ9") (str "abc123")).polls.length = 2 + 1 :=
  PollForAuthToken_first_failure (mockEnv 2 pendingResponse (.ok ⟨200, .ok (.invalid "unexpected end of JSON input")⟩))
    ⟨none, none⟩ 42 (str "XYZ9") (str "abc123") 2
    (fun i hi _ => ⟨pendingResponse, _, by simp only [mockEnv, if_pos hi], rfl, by decide⟩)
    (fun _ => Or.inr (Or.inr ⟨⟨200, .ok (.invalid "unexpected end of JSON input")⟩,
      .invalid "unexpected end of JSON input", ⟨none⟩, "unexpected end of JSON input",
      by simp [mockEnv], rfl, rfl⟩))
    (by decide)

/-- C4, as it fails: the first poll is answered with status 500 and the body `{}`, the
second with status 200 and a token; `PollForAuthToken` returns the token with no error,
after two attempts. -/
theorem PollForAuthToken_status500_not_fatal :
    (PollForAuthToken (mockEnv 1 ⟨500, .ok (.object [])⟩ (.ok tokenResponse)) ⟨none, none⟩ 42
      (str "XYZ9") (str "abc123")).token = str "tok-1" ∧
    (PollForAuthToken (mockEnv 1 ⟨500, .ok (.object [])⟩ (.ok tokenResponse)) ⟨none, none⟩ 42
      (str "XYZ9") (str "abc123")).err = none ∧
    (PollForAuthToken (mockEnv 1 ⟨500, .ok (.object [])⟩ (.ok tokenResponse)) ⟨none, none⟩ 42
      (str "XYZ9") (str "abc123")).polls.length = 2 :=
  pollRun_first_token (mockEnv 1 ⟨500, .ok (.object [])⟩ (.ok tokenResponse)) ⟨none, none⟩ 42
    (str "XYZ9") (str "abc123") 1 (str "tok-1")
    (fun i hi _ => ⟨⟨500, .ok (.object [])⟩, _, by simp only [mockEnv, if_pos hi], rfl, by decide⟩)
    (fun _ => ⟨tokenResponse, _, by simp [mockEnv], rfl, by decide⟩)
    (by decide)

/-- C4, amended: when the first poll is answered with status 500 before the deadline,
`PollForAuthToken` goes by the body alone.  A body that cannot be read or decoded makes it
return the error at that first attempt; a body that decodes with a token makes it return the
token at that first attempt; a body that decodes without a token makes the loop go on to its
second round, as after any other answer without a token. -/
theorem PollForAuthToken_status500 (env : PollEnv) (inCtx : Context) (pinID : Int)
    (pinCode clientID : GoString) (resp : Response)
    (hdo : ∀ req, env.Do 0 req = .ok resp) (hs : resp.StatusCode = 500)
    (hdl : Second < WithTimeout inCtx (30 * Minute)) :
    (∀ err, resp.Body = .error err →
      PollForAuthToken env inCtx pinID pinCode clientID =
        ⟨[], some ("PollForAuthToken: " ++ err), [Second]⟩) ∧
    (∀ b v err, resp.Body = .ok b → UnmarshalAuthToken b = (v, some err) →
      PollForAuthToken env inCtx pinID pinCode clientID =
        ⟨[], some ("PollForAuthToken: " ++ err), [Second]⟩) ∧
    (∀ b t, resp.Body = .ok b → UnmarshalAuthToken b = (⟨some t⟩, none) →
      PollForAuthToken env inCtx pinID pinCode clientID = ⟨t, none, [Second]⟩) ∧
    (∀ b, resp.Body = .ok b → UnmarshalAuthToken b = (⟨none⟩, none) →
      PollForAuthToken env inCtx pinID pinCode clientID =
        pollLoop env (WithTimeout inCtx (30 * Minute)) pinID pinCode clientID 1
          (Second + env.latency 0) [Second]) := by
  have _ := hs
  obtain ⟨req, hreq⟩ := pollRequest_ok pinID pinCode clientID
  have hfire := timerFires_of_lt 0 _ (env.tie 0) (by simpa using hdl)
  refine ⟨fun err hb => ?_, fun b v err hb hu => ?_, fun b t hb hu => ?_, fun b hb hu => ?_⟩
  · simp only [PollForAuthToken]
    rw [pollLoop_fire _ _ _ _ _ _ _ _ hfire]
    simp [pollOnce, hreq, hdo, hb]
  all_goals
    simp only [PollForAuthToken]
    rw [pollLoop_fire _ _ _ _ _ _ _ _ hfire]
    simp [pollOnce, hreq, hdo, hb, hu]

/-- Witness of C4, amended: status 500 with the body `{}` on the first poll, before the
deadline: the loop goes on to its second round. -/
theorem PollForAuthToken_status500_witness :
    PollForAuthToken (mockEnv 1 ⟨500, .ok (.object [])⟩ (.ok tokenResponse)) ⟨none, none⟩ 42
        (str "XYZ9") (str "abc123") =
      pollLoop (mockEnv 1 ⟨500, .ok (.object [])⟩ (.ok tokenResponse))
        (WithTimeout ⟨none, none⟩ (30 * Minute)) 42 (str "XYZ9") (str "abc123") 1
        (Second + (mockEnv 1 ⟨500, .ok (.object [])⟩ (.ok tokenResponse)).latency 0) [Second] :=
  (PollForAuthToken_status500 (mockEnv 1 ⟨500, .ok (.object [])⟩ (.ok tokenResponse))
    ⟨none, none⟩ 42 (str "XYZ9") (str "abc123") ⟨500, .ok (.object [])⟩
    (fun _ => by simp [mockEnv]) rfl (by decide)).2.2.2 (.object []) rfl (by decide)

theorem range_map_shift (f : Nat → Nat) (g : Nat → Nat) (k : Nat) :
    (List.range (k + 1)).map (fun j => g (f j)) =
      g (f 0) :: (List.range k).map (fun j => g (f (j + 1))) := by
  rw [List.range_succ_eq_map, List.map_cons, List.map_map]
  rfl

/-- While every attempt comes back without token and without error, the loop from round `i`
issues one attempt in each round whose timer case runs, up to the first round in which
`ctx.Done()` wins, and returns the timeout error there. -/
theorem pollLoop_runs_to_done (env : PollEnv) (done : Nat) (pinID : Int)
    (pinCode clientID : GoString) (hnull : ∀ i, answersWith env i none) :
    ∀ (m i : Nat) (polls : List Nat), done - roundStart env i ≤ m →
    ∃ k : Nat,
      pollLoop env done pinID pinCode clientID i (roundStart env i) polls =
        ⟨[], some timeoutMessage,
          polls ++ (List.range k).map (fun j => roundStart env (i + j) + Second)⟩ ∧
      (∀ j, j < k → timerFires (roundStart env (i + j)) done (env.tie (i + j)) = true) ∧
      timerFires (roundStart env (i + k)) done (env.tie (i + k)) = false := by
  intro m
  induction m with
  | zero =>
    intro i polls hm
    have hstop : timerFires (roundStart env i) done (env.tie i) = false := by
      simp only [timerFires, Second, Bool.or_eq_false_iff, decide_eq_false_iff_not,
        Bool.and_eq_false_imp, beq_iff_eq]
      omega
    exact ⟨0, by rw [pollLoop_stop _ _ _ _ _ _ _ _ hstop]; simp, fun j hj => absurd hj (by omega),
      hstop⟩
  | succ m ih =>
    intro i polls hm
    by_cases hfire : timerFires (roundStart env i) done (env.tie i) = true
    · have hle := timerFires_le _ _ _ hfire
      have hstep := pollOnce_of_null env i pinID pinCode clientID (hnull i)
      have hnext : roundStart env (i + 1) = roundStart env i + Second + env.latency i := rfl
      obtain ⟨k, heq, hf, hs⟩ := ih (i + 1) (polls ++ [roundStart env i + Second])
        (by rw [hnext]; simp only [Second] at hle ⊢; omega)
      refine ⟨k + 1, ?_, ?_, ?_⟩
      · have hg : (fun j => roundStart env (i + 1 + j) + Second) =
            (fun j => roundStart env (i + (j + 1)) + Second) := by
          funext j
          rw [Nat.add_assoc i 1 j, Nat.add_comm 1 j]
        rw [hg] at heq
        rw [pollLoop_fire _ _ _ _ _ _ _ _ hfire, hstep]
        simp only
        rw [← hnext, heq,
          range_map_shift (fun j => roundStart env (i + j)) (fun t => t + Second) k]
        simp only [List.append_assoc, List.singleton_append, Nat.add_zero]
      · intro j hj
        cases j with
        | zero => exact hfire
        | succ j =>
          have := hf j (by omega)
          rw [show i + 1 + j = i + (j + 1) by omega] at this
          exact this
      · rw [show i + (k + 1) = i + 1 + k by omega]
        exact hs
    · have hstop : timerFires (roundStart env i) done (env.tie i) = false := by simpa using hfire
      exact ⟨0, by rw [pollLoop_stop _ _ _ _ _ _ _ _ hstop]; simp,
        fun j hj => absurd hj (by omega), hstop⟩

theorem WithTimeout_eq_effectiveDeadline (inCtx : Context) :
    WithTimeout inCtx (30 * Minute) = effectiveDeadline inCtx := rfl

/-- C5: when every attempt is answered with a decoded response whose `authToken` is null,
`PollForAuthToken` returns, and what it returns is `("", err)` with the timeout error.  The
loop runs up to the effective deadline, the minimum of the caller's deadline and 30 minutes,
and stops there: its attempts are exactly those of the rounds `0` to `n - 1`, one per round at
the tick of its timer, where every one of these ticks comes before the effective deadline (or
at it, when the `select` picks the timer), and the tick of round `n` does not.  So no attempt
is issued later than 30 minutes after the start nor later than the caller's deadline, any two
attempts are at least a second apart, and there are at most 1800 of them. -/
theorem PollForAuthToken_deadline (env : PollEnv) (inCtx : Context) (pinID : Int)
    (pinCode clientID : GoString) (hnull : ∀ i, answersWith env i none) :
    (PollForAuthToken env inCtx pinID pinCode clientID).token = [] ∧
    (PollForAuthToken env inCtx pinID pinCode clientID).err = some timeoutMessage ∧
    (∃ n : Nat,
      (PollForAuthToken env inCtx pinID pinCode clientID).polls =
        (List.range n).map (fun i => roundStart env i + Second) ∧
      (∀ i, i < n → roundStart env i + Second < effectiveDeadline inCtx ∨
        (roundStart env i + Second = effectiveDeadline inCtx ∧ env.tie i = true)) ∧
      effectiveDeadline inCtx ≤ roundStart env n + Second ∧
      (roundStart env n + Second = effectiveDeadline inCtx → env.tie n = false)) ∧
    (inCtx.cancelAt = none → inCtx.deadline = none → effectiveDeadline inCtx = 30 * Minute) ∧
    (∀ D, inCtx.cancelAt = none → inCtx.deadline = some D →
      effectiveDeadline inCtx = min D (30 * Minute)) ∧
    (∀ t ∈ (PollForAuthToken env inCtx pinID pinCode clientID).polls,
      t ≤ 30 * Minute ∧ ∀ D, inCtx.deadline = some D → t ≤ D) ∧
    (PollForAuthToken env inCtx pinID pinCode clientID).polls.length ≤ 1800 ∧
    (PollForAuthToken env inCtx pinID pinCode clientID).polls.Pairwise
      (fun a b => a + Second ≤ b) := by
  obtain ⟨new, heq, hb, hp, hl⟩ := pollLoop_all_pending env (WithTimeout inCtx (30 * Minute))
    pinID pinCode clientID hnull _ 0 0 [] (Nat.le_refl _)
  obtain ⟨k, heq2, hf, hs⟩ := pollLoop_runs_to_done env (WithTimeout inCtx (30 * Minute))
    pinID pinCode clientID hnull _ 0 [] (Nat.le_refl _)
  obtain ⟨w1, w2⟩ := WithTimeout_le inCtx (30 * Minute)
  have h0 : roundStart env 0 = 0 := rfl
  rw [h0] at heq2
  simp only [Nat.zero_add, List.nil_append] at heq2 hf hs
  rw [WithTimeout_eq_effectiveDeadline] at hf hs
  refine ⟨?_, ?_, ⟨k, ?_, ?_, ?_, ?_⟩, ?_, ?_, ?_, ?_, ?_⟩
  · simp only [PollForAuthToken, heq]
  · simp only [PollForAuthToken, heq]
  · simp only [PollForAuthToken, heq2]
  · intro i hi
    have := hf i hi
    simpa [timerFires] using this
  · simp only [timerFires, Bool.or_eq_false_iff, decide_eq_false_iff_not] at hs
    omega
  · intro he
    simp only [timerFires, Bool.or_eq_false_iff, decide_eq_false_iff_not,
      Bool.and_eq_false_imp, beq_iff_eq] at hs
    exact hs.2 he
  · intro hc hd
    simp [effectiveDeadline, hc, hd, earliest]
  · intro D hc hd
    simp [effectiveDeadline, hc, hd, earliest]
  · intro t ht
    simp only [PollForAuthToken, heq, List.nil_append] at ht
    exact ⟨Nat.le_trans (hb t ht).2 w1, fun D hD => Nat.le_trans (hb t ht).2 (w2 D hD)⟩
  · simp only [PollForAuthToken, heq, List.nil_append]
    simp only [Minute, Second] at hl w1
    omega
  · simp only [PollForAuthToken, heq, List.nil_append]
    exact hp

/-- Witness of C5: a caller deadline of 2 seconds and an endpoint that always answers null at
once: the call returns the timeout error after its one attempt, issued at 1 second; at
2 seconds the deadline wins. -/
theorem PollForAuthToken_deadline_witness :
    (PollForAuthToken (mockEnv 0 pendingResponse (.ok pendingResponse))
      ⟨some (2 * Second), none⟩ 42 (str "XYZ9") (str "abc123")).token = [] ∧
    (PollForAuthToken (mockEnv 0 pendingResponse (.ok pendingResponse))
      ⟨some (2 * Second), none⟩ 42 (str "XYZ9") (str "abc123")).err = some timeoutMessage ∧
    (PollForAuthToken (mockEnv 0 pendingResponse (.ok pendingResponse))
      ⟨some (2 * Second), none⟩ 42 (str "XYZ9") (str "abc123")).polls = [Second] := by
  obtain ⟨h1, h2, ⟨n, hp, hlt, hge, _⟩, _⟩ :=
    PollForAuthToken_deadline (mockEnv 0 pendingResponse (.ok pendingResponse))
      ⟨some (2 * Second), none⟩ 42 (str "XYZ9") (str "abc123")
      (fun _ _ => ⟨pendingResponse, _, by simp [mockEnv], rfl, by decide⟩)
  refine ⟨h1, h2, ?_⟩
  have hn : n = 1 := by
    rcases Nat.lt_or_ge n 1 with h | h
    · have : n = 0 := by omega
      subst this
      simp [effectiveDeadline, earliest, roundStart, Minute, Second] at hge
    · rcases Nat.lt_or_ge 1 n with h2 | h2
      · have := hlt 1 h2
        simp [effectiveDeadline, earliest, roundStart, Minute, Second, mockEnv] at this
      · omega
  rw [hp, hn]
  rfl

end PlexAuth
